import Mathlib

/-!
# Verification of the route-extractor core (`src/index.ts`)

This file gives a shallow embedding of the route-extraction library:
framework detection, the two Next.js file-path-to-route converters, the
declaration-based (react-router-dom / vite) extraction pipeline, import
resolution, and the orchestrator `extractSiteRoutes`.

Strings are modelled as `List Char` (`Str`).  The JavaScript regex
replacements are modelled character-exactly, including their left-to-right
global scan and the source's order of application.  Recursive scans use an
explicit fuel argument (always called with fuel `≥` the list length) so that
every definition is structurally recursive and kernel-computable.
-/

/-- Character-list strings, the representation used throughout the model. -/
abbrev Str := List Char

/-- Coerce a Lean string literal to the `Str` representation. -/
def chars (s : String) : Str := s.toList

/-- Scan for the first `']'`: returns the (`']'`-free) chunk before it and the
tail after it, or `none` when the list has no `']'`.  This is how both bracket
regexes of the source locate the closing bracket of a candidate match. -/
def findRB : Str → Option (Str × Str)
  | [] => none
  | c :: r =>
    if c = ']' then some ([], r)
    else (findRB r).map fun p => (c :: p.1, p.2)

/-- One global pass of `route.replace(/\[([^\]]+)\]/g, ":$1")` (fuelled).
At a `'['` the regex matches a nonempty `']'`-free body followed by `']'`;
on a match the replacement `:<body>` is emitted and scanning resumes after the
`']'`; otherwise the character is emitted unchanged. -/
def replDynAux : Nat → Str → Str
  | 0, l => l
  | _ + 1, [] => []
  | fuel + 1, c :: rest =>
    if c = '[' then
      match findRB rest with
      | some (b, t) =>
        if b = [] then c :: replDynAux fuel rest
        else ':' :: (b ++ replDynAux fuel t)
      | none => c :: replDynAux fuel rest
    else c :: replDynAux fuel rest

/-- Model of `route.replace(/\[([^\]]+)\]/g, ":$1")` — the plain dynamic-segment
substitution of the source (applied *first* at lines 250/278). -/
def replDyn (l : Str) : Str := replDynAux l.length l

/-- One global pass of `route.replace(/\[\.\.\.([^\]]+)\]/g, "*")` (fuelled).
A match needs the literal `"[..."`, then a nonempty `']'`-free body, then
`']'`; on failure the scan advances one character, exactly like the regex
engine. -/
def replSpreadAux : Nat → Str → Str
  | 0, l => l
  | _ + 1, [] => []
  | fuel + 1, c :: rest =>
    if c = '[' then
      match rest with
      | '.' :: '.' :: '.' :: r2 =>
        match findRB r2 with
        | some (b, t) =>
          if b = [] then c :: replSpreadAux fuel rest
          else '*' :: replSpreadAux fuel t
        | none => c :: replSpreadAux fuel rest
      | _ => c :: replSpreadAux fuel rest
    else c :: replSpreadAux fuel rest

/-- Model of `route.replace(/\[\.\.\.([^\]]+)\]/g, "*")` — the catch-all substitution
of the source (applied *second*, at lines 251/279). -/
def replSpread (l : Str) : Str := replSpreadAux l.length l

/-- Model of `filePath.replace(/\.(tsx|ts|jsx|js)$/, "")`: strip one recognized
source-file extension from the end.  The four alternatives are mutually
exclusive as suffixes, so testing each in turn is exact. -/
def stripExt (l : Str) : Str :=
  if (chars ".tsx").isSuffixOf l then l.take (l.length - 4)
  else if (chars ".ts").isSuffixOf l then l.take (l.length - 3)
  else if (chars ".jsx").isSuffixOf l then l.take (l.length - 4)
  else if (chars ".js").isSuffixOf l then l.take (l.length - 3)
  else l

/-- The special-basename stripping chain of `convertNextJSAppPathToRoute`
(lines 237–247): an `else if` chain keyed on `endsWith`, each branch removing
the matched `/"name"` suffix. -/
def stripSpecial (l : Str) : Str :=
  if (chars "/page").isSuffixOf l then l.take (l.length - 5)
  else if (chars "/layout").isSuffixOf l then l.take (l.length - 7)
  else if (chars "/loading").isSuffixOf l then l.take (l.length - 8)
  else if (chars "/error").isSuffixOf l then l.take (l.length - 6)
  else if (chars "/not-found").isSuffixOf l then l.take (l.length - 10)
  else l

/-- Model of `convertNextJSAppPathToRoute` (src/index.ts lines 232–263): strip the
extension, strip a special basename, run the two bracket substitutions in the
source's order (plain first, spread second), handle `index`, prefix `/`, and
fall back to `/` on the empty string. -/
def convertNextJSAppPathToRoute (filePath : Str) : Str :=
  let r1 := stripSpecial (stripExt filePath)
  let r3 := replSpread (replDyn r1)
  let r4 :=
    if r3 = chars "index" then chars "/"
    else if r3.head? = some '/' then r3
    else '/' :: r3
  if r4 = [] then chars "/" else r4

/-- Model of `convertNextJSPagesPathToRoute` (src/index.ts lines 268–282): strip the
extension, map `index` to `/`, otherwise run the two bracket substitutions
(plain first, spread second) and prefix `/`. -/
def convertNextJSPagesPathToRoute (filePath : Str) : Str :=
  let r0 := stripExt filePath
  if r0 = chars "index" then chars "/"
  else '/' :: replSpread (replDyn r0)

/-- JS `String.prototype.includes`: substring test, used for the `dynamic` /
`catchAll` derivations (`routePath.includes("[")`, `.includes("...")`,
`.includes(":")`, `.includes("*")`). -/
def strIncludes (needle : Str) : Str → Bool
  | [] => needle.isEmpty
  | c :: rest => needle.isPrefixOf (c :: rest) || strIncludes needle rest

/-- The `importedComponent` record attached to declaration-extracted routes. -/
structure ImportedComponent where
  name : Str
  path : Str
  fullPath : Option Str
deriving Repr

/-- The `RouteInfo` interface (src/index.ts lines 14–27).  Optional fields are
`Option`s; `dynamic`/`catchAll` are `none` when the source leaves them
`undefined`. -/
structure RouteInfo where
  path : Str
  component : Option Str := none
  children : List RouteInfo := []
  dynamic : Option Bool := none
  catchAll : Option Bool := none
  resolvedComponentPath : Option Str := none
  importedComponent : Option ImportedComponent := none
deriving Repr

/-- The framework tag union of `FrameworkInfo.name`. -/
inductive FrameworkName where
  | nextjs | vite | reactRouterDom | unknown
deriving Repr, DecidableEq

/-- Model of `FrameworkInfo` (src/index.ts lines 29–32). -/
structure FrameworkInfo where
  name : FrameworkName
  version : Option Str := none
deriving Repr, DecidableEq

/-- Model of `ExtractionResult` (src/index.ts lines 34–38). -/
structure ExtractionResult where
  framework : FrameworkInfo
  routes : List RouteInfo
  errors : List Str
deriving Repr

/-- Model of `extractNextJSAppRoutes` (lines 160–191) per-directory body: the glob
result is the list of paths relative to the app dir; `pfx` is the
project-relative prefix of that dir (`"app/"` in the pipeline), so that
`path.relative(projectPath, file) = pfx ++ rel`.  A record is pushed only when
the converted route path is truthy (non-empty). -/
def extractNextJSAppRoutes (pfx : Str) (files : List Str) : List RouteInfo :=
  files.filterMap fun rel =>
    let routePath := convertNextJSAppPathToRoute rel
    if routePath = [] then none
    else some
      { path := routePath
        component := some rel
        children := []
        resolvedComponentPath := some (pfx ++ rel)
        dynamic := some (strIncludes (chars "[") routePath || strIncludes (chars "...") routePath)
        catchAll := some (strIncludes (chars "...") routePath) }

/-- Model of `extractNextJSPagesRoutes` (lines 196–227), same shape as the app-router
extraction but with the pages converter. -/
def extractNextJSPagesRoutes (pfx : Str) (files : List Str) : List RouteInfo :=
  files.filterMap fun rel =>
    let routePath := convertNextJSPagesPathToRoute rel
    if routePath = [] then none
    else some
      { path := routePath
        component := some rel
        children := []
        resolvedComponentPath := some (pfx ++ rel)
        dynamic := some (strIncludes (chars "[") routePath || strIncludes (chars "...") routePath)
        catchAll := some (strIncludes (chars "...") routePath) }

/-! ## POSIX path model (`path.dirname`, `path.resolve`, `path.relative`,
`path.extname`, `getRelativePath`)

The library runs `path` in POSIX mode on absolute inputs (glob is called with
`absolute: true`).  Paths are modelled as `Str`; normalization splits on `/`,
drops empty and `.` segments and lets `..` pop a segment. -/

/-- Split a string at every `'/'` (like `"a/b".split("/")`, chunks may be
empty). -/
def splitSlash : Str → List Str
  | [] => [[]]
  | c :: r =>
    if c = '/' then [] :: splitSlash r
    else
      match splitSlash r with
      | h :: t => (c :: h) :: t
      | [] => [[c]]

/-- Normalize a segment list for an absolute path: drop `""` and `"."`,
let `".."` pop the last kept segment (or vanish at the root).  `acc` holds the
kept segments in reverse. -/
def normStack (acc : List Str) : List Str → List Str
  | [] => acc.reverse
  | s :: rest =>
    if s = [] ∨ s = chars "." then normStack acc rest
    else if s = chars ".." then normStack (acc.drop 1) rest
    else normStack (s :: acc) rest

/-- Normalized segments of an (absolute) path string. -/
def normSegs (p : Str) : List Str := normStack [] (splitSlash p)

/-- Join segments with `'/'` (no leading slash). -/
def joinSlash : List Str → Str
  | [] => []
  | [s] => s
  | s :: rest => s ++ '/' :: joinSlash rest

/-- Drop the longest common prefix of two segment lists. -/
def dropCommon : List Str → List Str → List Str × List Str
  | a :: as, b :: bs => if a = b then dropCommon as bs else (a :: as, b :: bs)
  | as, bs => (as, bs)

/-- Model of `path.relative(from, to)` for absolute POSIX paths: strip the common
prefix, then one `".."` per remaining `from` segment followed by the remaining
`to` segments.  The result is always slash-separated and never starts with
`'/'`. -/
def pathRelative (src dst : Str) : Str :=
  let p := dropCommon (normSegs src) (normSegs dst)
  joinSlash (List.replicate p.1.length (chars "..") ++ p.2)

/-- Model of `getRelativePath` (src/index.ts lines 691–693). -/
def getRelativePath (filePath projectPath : Str) : Str :=
  pathRelative projectPath filePath

/-- Model of `path.resolve(base, rel)` for the two call shapes the source uses: `rel`
absolute wins outright, otherwise it is joined onto the (absolute) base, and
the joined path is normalized. -/
def pathResolve (base rel : Str) : Str :=
  if rel.head? = some '/' then '/' :: joinSlash (normSegs rel)
  else '/' :: joinSlash (normSegs (base ++ '/' :: rel))

/-- Model of `path.dirname` (POSIX): trailing slashes trimmed, then everything before
the last `'/'`; `"."` when there is no slash, `"/"` when only the root
remains. -/
def pathDirname (p : Str) : Str :=
  let trimmed := p.reverse.dropWhile (· = '/')
  let afterBase := trimmed.dropWhile (· ≠ '/')
  let core := afterBase.dropWhile (· = '/')
  if core = [] then (if p.head? = some '/' then chars "/" else chars ".")
  else core.reverse

/-- Model of `path.extname` (POSIX): the suffix of the basename from its last `'.'`;
empty for dotless basenames, for a basename whose only `'.'` is its first
character, and for `"."`/`".."`. -/
def pathExtname (p : Str) : Str :=
  let rb := p.reverse.takeWhile (· ≠ '/')
  if rb.reverse = chars "." ∨ rb.reverse = chars ".." then []
  else
    let pre := rb.takeWhile (· ≠ '.')
    let rest := rb.dropWhile (· ≠ '.')
    match rest with
    | [] => []
    | _ :: tail => if tail = [] then [] else (pre ++ ['.']).reverse

/-- The extension probe list of `resolveImportPath` (line 664). -/
def probeExtensions : List Str := [chars ".tsx", chars ".ts", chars ".jsx", chars ".js"]

/-- The probing loop of `resolveImportPath` (lines 664–670): return the first
extension under which the resolved path exists. -/
def firstExistingExt (ex : Str → Bool) (resolved : Str) : List Str → Option Str
  | [] => none
  | e :: es => if ex (resolved ++ e) then some (resolved ++ e) else firstExistingExt ex resolved es

/-- Model of `resolveImportPath` (src/index.ts lines 652–686).  `ex` is the
`fs.pathExists` probe. -/
def resolveImportPath (ex : Str → Bool) (importPath currentFile projectPath : Str) : Str :=
  if importPath.head? = some '.' then
    let currentDir := pathDirname currentFile
    let resolved := pathResolve currentDir importPath
    if pathExtname importPath = [] then
      match firstExistingExt ex resolved probeExtensions with
      | some fullPath => getRelativePath fullPath projectPath
      | none => getRelativePath (resolved ++ chars ".tsx") projectPath
    else getRelativePath resolved projectPath
  else if importPath.head? = some '/' ∨ (chars "src/").isPrefixOf importPath then
    getRelativePath (pathResolve projectPath importPath) projectPath
  else importPath

/-! ## Declaration-based extraction (react-router-dom / vite strategies)

The Babel AST is modelled only at the shape the extractor inspects: a `Route`
JSX element is its attribute list, a route-descriptor object literal is its
property list, a `createBrowserRouter` call is its (optional) array argument.
The per-file import table is the assoc list built by the import pass
(`Map.set`, so the *last* binding of a name wins).  Nested descriptor
recursion carries an explicit fuel that bounds the nesting depth; all claim
theorems quantify over it. -/

/-- A JSX attribute value as the extractor distinguishes them: a string
literal, an expression container holding a bare identifier, an expression
container holding a JSX element (its tag name), or anything else. -/
inductive JSXAttrVal where
  | strLit : Str → JSXAttrVal
  | exprIdent : Str → JSXAttrVal
  | exprJSXEl : Str → JSXAttrVal
  | otherAttr : JSXAttrVal
deriving Repr

mutual

/-- An object-literal property value as the extractor distinguishes them. -/
inductive PropVal where
  | strLit : Str → PropVal
  | identV : Str → PropVal
  | jsxEl : Str → PropVal
  | childArr : List RObjElem → PropVal
  | otherV : PropVal
deriving Repr

/-- An element of a route-descriptor array: an object literal (its property
list) or any non-object element (skipped by the extractor). -/
inductive RObjElem where
  | objE : List (Str × PropVal) → RObjElem
  | nonObj : RObjElem
deriving Repr
end

/-- Model of `Map.get` over the import table built with `Map.set`: the last binding of
a local name wins. -/
def mget (m : List (Str × Str)) (k : Str) : Option Str :=
  m.foldl (fun acc kv => if kv.1 = k then some kv.2 else acc) none

/-- The initial `routeInfo` value of both declaration extractors
(lines 468–472 and 573–577): path `"/"`, `component` = the file being parsed
(project-relative), empty children. -/
def initialRouteInfo (pp filePath : Str) : RouteInfo :=
  { path := chars "/"
    component := some (getRelativePath filePath pp)
    children := [] }

/-- Resolution step shared by the `component` / `element` branches: look the
identifier up in the import table and, when bound, resolve the specifier and
set `importedComponent` / `resolvedComponentPath`. -/
def resolveComponentIdent (ex : Str → Bool) (pp filePath : Str)
    (imports : List (Str × Str)) (r : RouteInfo) (componentName : Str) : RouteInfo :=
  match mget imports componentName with
  | some importPath =>
    let fullPath := resolveImportPath ex importPath filePath pp
    { r with
        importedComponent := some ⟨componentName, importPath, some fullPath⟩
        resolvedComponentPath := some fullPath }
  | none => r

/-- One step of the attribute loop of `extractRouteFromJSXElement`
(lines 474–529). -/
def applyJSXAttr (ex : Str → Bool) (pp filePath : Str) (imports : List (Str × Str))
    (r : RouteInfo) (attr : Str × JSXAttrVal) : RouteInfo :=
  if attr.1 = chars "path" then
    match attr.2 with
    | .strLit s =>
      { r with
          path := s
          dynamic := some (strIncludes (chars ":") s)
          catchAll := some (strIncludes (chars "*") s) }
    | _ => r
  else if attr.1 = chars "component" then
    match attr.2 with
    | .exprIdent n => resolveComponentIdent ex pp filePath imports r n
    | _ => r
  else if attr.1 = chars "element" then
    match attr.2 with
    | .exprJSXEl tag => resolveComponentIdent ex pp filePath imports r tag
    | _ => r
  else r

/-- Model of `extractRouteFromJSXElement` (src/index.ts lines 462–532): fold the
attribute loop over the initial record.  The body never returns `null`. -/
def extractRouteFromJSXElement (ex : Str → Bool) (pp filePath : Str)
    (imports : List (Str × Str)) (attrs : List (Str × JSXAttrVal)) : Option RouteInfo :=
  some (attrs.foldl (applyJSXAttr ex pp filePath imports) (initialRouteInfo pp filePath))

/-- One step of the property loop of `extractRouteFromObjectExpression`
(lines 579–644); `handleChildren` is the recursive interpretation of a
`children` array. -/
def applyObjProp (handleChildren : List RObjElem → List RouteInfo)
    (ex : Str → Bool) (pp filePath : Str) (imports : List (Str × Str))
    (r : RouteInfo) (prop : Str × PropVal) : RouteInfo :=
  if prop.1 = chars "path" then
    match prop.2 with
    | .strLit s =>
      { r with
          path := s
          dynamic := some (strIncludes (chars ":") s)
          catchAll := some (strIncludes (chars "*") s) }
    | _ => r
  else if prop.1 = chars "component" then
    match prop.2 with
    | .identV n => resolveComponentIdent ex pp filePath imports r n
    | _ => r
  else if prop.1 = chars "element" then
    match prop.2 with
    | .jsxEl tag => resolveComponentIdent ex pp filePath imports r tag
    | _ => r
  else if prop.1 = chars "children" then
    match prop.2 with
    | .childArr cs => { r with children := handleChildren cs }
    | _ => r
  else r

/-- Model of `extractRouteFromObjectExpression` (src/index.ts lines 567–647), fuelled
on descriptor nesting depth: non-object `children` elements are skipped, every
object element yields a child record.  The body never returns `null`. -/
def extractRouteFromObjectExpression (ex : Str → Bool) (pp filePath : Str)
    (imports : List (Str × Str)) : Nat → List (Str × PropVal) → RouteInfo
  | 0, props =>
    props.foldl (applyObjProp (fun _ => []) ex pp filePath imports)
      (initialRouteInfo pp filePath)
  | fuel + 1, props =>
    props.foldl
      (applyObjProp
        (fun cs => cs.filterMap fun e =>
          match e with
          | .objE ps => some (extractRouteFromObjectExpression ex pp filePath imports fuel ps)
          | .nonObj => none)
        ex pp filePath imports)
      (initialRouteInfo pp filePath)

/-- Model of `extractRoutesFromCreateBrowserRouter` (lines 537–562): `none` models a
call whose first argument is absent or not an array literal; object elements
of the array each yield one record, other elements are skipped. -/
def extractRoutesFromCreateBrowserRouter (ex : Str → Bool) (pp filePath : Str)
    (imports : List (Str × Str)) (fuel : Nat) (args : Option (List RObjElem)) : List RouteInfo :=
  match args with
  | some elems =>
    elems.filterMap fun e =>
      match e with
      | .objE ps => some (extractRouteFromObjectExpression ex pp filePath imports fuel ps)
      | .nonObj => none
  | none => []

/-- One candidate source file as the declaration scan sees it: its absolute
path, whether its raw text contains one of the routing signal tokens
(`react-router-dom` / `BrowserRouter` / `Routes`), whether Babel parses it,
its import table, its `Route` JSX elements in document order, and its
`createBrowserRouter` calls. -/
structure SrcFile where
  path : Str
  hasSignal : Bool
  parseOk : Bool
  imports : List (Str × Str)
  jsxRoutes : List (List (Str × JSXAttrVal))
  browserRouterCalls : List (Option (List RObjElem))
deriving Repr

/-- Model of `extractReactRouterRoutesFromFile` (lines 372–457): on a parse failure the
file contributes nothing; otherwise all JSX matches (document order) precede
all `createBrowserRouter` matches. -/
def extractReactRouterRoutesFromFile (ex : Str → Bool) (pp : Str) (fuel : Nat)
    (f : SrcFile) : List RouteInfo :=
  if f.parseOk then
    (f.jsxRoutes.filterMap (extractRouteFromJSXElement ex pp f.path f.imports))
      ++ (f.browserRouterCalls.map
            (extractRoutesFromCreateBrowserRouter ex pp f.path f.imports fuel)).flatten
  else []

/-- Model of `extractViteRoutes` (src/index.ts lines 287–320): scan every candidate
file, keep those whose content carries a routing signal, and concatenate the
per-file results with no deduplication. -/
def extractViteRoutes (ex : Str → Bool) (pp : Str) (fuel : Nat)
    (files : List SrcFile) : List RouteInfo :=
  files.foldl
    (fun acc f =>
      if f.hasSignal then acc ++ extractReactRouterRoutesFromFile ex pp fuel f else acc)
    []

/-- The dedup key `` `${route.path}|${route.component || "no-component"}` ``
(line 354). -/
def routeKey (r : RouteInfo) : Str :=
  r.path ++ '|' ::
    (match r.component with
     | some c => if c = [] then chars "no-component" else c
     | none => chars "no-component")

/-- The inner dedup loop of `extractReactRouterRoutes` (lines 352–359): push
a route only when its key is unseen, recording the key. -/
def addRoutesDedup : List Str → List RouteInfo → List RouteInfo → List Str × List RouteInfo
  | seen, acc, [] => (seen, acc)
  | seen, acc, r :: rs =>
    if routeKey r ∈ seen then addRoutesDedup seen acc rs
    else addRoutesDedup (routeKey r :: seen) (acc ++ [r]) rs

/-- Model of `extractReactRouterRoutes` (src/index.ts lines 325–367): identical scan,
signal filter and per-file extraction as `extractViteRoutes`, plus the
seen-key deduplication. -/
def extractReactRouterRoutes (ex : Str → Bool) (pp : Str) (fuel : Nat)
    (files : List SrcFile) : List RouteInfo :=
  (files.foldl
    (fun st f =>
      if f.hasSignal then addRoutesDedup st.1 st.2 (extractReactRouterRoutesFromFile ex pp fuel f)
      else st)
    (([] : List Str), ([] : List RouteInfo))).2

/-- Reference single-list deduplication: keep a route iff its key has not
occurred earlier (first occurrence wins). -/
def dedupeRoutes (seen : List Str) : List RouteInfo → List RouteInfo
  | [] => []
  | r :: rs =>
    if routeKey r ∈ seen then dedupeRoutes seen rs
    else r :: dedupeRoutes (routeKey r :: seen) rs

/-! ## Framework detection and the orchestrator -/

/-- The project as the orchestrator observes it through the filesystem probe:
whether the root exists, the manifest (when present) with its two dependency
sections, the framework config-file presence flags, the two Next.js routing
directories with their globbed (directory-relative) file lists, the candidate
source files of the whole-project scan, and the existence probe used
by import resolution. -/
structure ProjectModel where
  pathStr : Str
  pathExists : Bool
  hasPackageJson : Bool
  deps : List (Str × Str)
  devDeps : List (Str × Str)
  hasNextConfigJs : Bool
  hasNextConfigTs : Bool
  hasViteConfigJs : Bool
  hasViteConfigTs : Bool
  hasAppDir : Bool
  appFiles : List Str
  hasPagesDir : Bool
  pagesFiles : List Str
  srcFiles : List SrcFile
  ex : Str → Bool

/-- Lookup in `{...dependencies, ...devDependencies}`: the devDependencies
spread overrides the dependencies one. -/
def depLookup (p : ProjectModel) (k : Str) : Option Str :=
  (mget p.devDeps k).orElse fun _ => mget p.deps k

/-- Model of `detectFramework` (src/index.ts lines 92–134): manifest dependencies in
priority order `next`, `vite`, `react-router-dom`; with no manifest match the
fallback checks `next.config.js|ts` first, then `vite.config.js|ts`. -/
def detectFramework (p : ProjectModel) : FrameworkInfo :=
  let fileChecks : FrameworkInfo :=
    if p.hasNextConfigJs || p.hasNextConfigTs then ⟨.nextjs, none⟩
    else if p.hasViteConfigJs || p.hasViteConfigTs then ⟨.vite, none⟩
    else ⟨.unknown, none⟩
  if p.hasPackageJson then
    match depLookup p (chars "next") with
    | some v => ⟨.nextjs, some v⟩
    | none =>
      match depLookup p (chars "vite") with
      | some v => ⟨.vite, some v⟩
      | none =>
        match depLookup p (chars "react-router-dom") with
        | some v => ⟨.reactRouterDom, some v⟩
        | none => fileChecks
  else fileChecks

/-- Model of `extractNextJSRoutes` (lines 139–155): App Router results (when `app/`
exists) precede Pages Router results (when `pages/` exists); the directory
prefixes make `resolvedComponentPath` project-relative. -/
def extractNextJSRoutes (p : ProjectModel) : List RouteInfo :=
  (if p.hasAppDir then extractNextJSAppRoutes (chars "app/") p.appFiles else [])
    ++ (if p.hasPagesDir then extractNextJSPagesRoutes (chars "pages/") p.pagesFiles else [])

/-- Model of `extractSiteRoutes` (src/index.ts lines 45–87): fast-fail on a missing
root, otherwise detect the framework and dispatch; an unknown framework
appends the single error string.  The embedding is total, mirroring the
try/catch that keeps every failure inside the returned record. -/
def extractSiteRoutes (fuel : Nat) (p : ProjectModel) : ExtractionResult :=
  if p.pathExists then
    let fw := detectFramework p
    match fw.name with
    | .nextjs => ⟨fw, extractNextJSRoutes p, []⟩
    | .vite => ⟨fw, extractViteRoutes p.ex p.pathStr fuel p.srcFiles, []⟩
    | .reactRouterDom => ⟨fw, extractReactRouterRoutes p.ex p.pathStr fuel p.srcFiles, []⟩
    | .unknown => ⟨fw, [], [chars "Unsupported or unknown framework"]⟩
  else
    ⟨⟨.unknown, none⟩, [], [chars "Project path does not exist: " ++ p.pathStr]⟩

/-- All routes of a forest down to a given depth: the forest itself plus,
recursively, every `children` forest.  Quantifying theorems over the fuel
covers records at every nesting depth. -/
def flattenRoutes : Nat → List RouteInfo → List RouteInfo
  | 0, rs => rs
  | fuel + 1, rs => rs.flatMap fun r => r :: flattenRoutes fuel r.children

/-! ## Additional definitions used by the claim statements -/

/-- A path with well-formed bracket groups: every `'['` opens a nonempty
bracket-free body closed by `']'`, and no stray `']'` occurs.  (Fuelled like
the replacement scans.) -/
def wfBracketsAux : Nat → Str → Bool
  | 0, _ => true
  | _ + 1, [] => true
  | fuel + 1, c :: rest =>
    if c = '[' then
      match findRB rest with
      | some (b, t) =>
        if b = [] then false
        else if '[' ∈ b then false
        else wfBracketsAux fuel t
      | none => false
    else if c = ']' then false
    else wfBracketsAux fuel rest

/-- Bracket well-formedness of a path string. -/
def wfBrackets (l : Str) : Bool := wfBracketsAux l.length l

/-- A record whose `dynamic`/`catchAll` flags are either both unset or both
derived from its own path via `:` / `*` substring presence — the only two
states the declaration extractors produce. -/
def FlagsConsistent (r : RouteInfo) : Prop :=
  (r.dynamic = none ∧ r.catchAll = none) ∨
  (r.dynamic = some (strIncludes (chars ":") r.path) ∧
   r.catchAll = some (strIncludes (chars "*") r.path))

/-- Asserts that `resolvedComponentPath`, when present, does not start with `'/'` (is not
an absolute POSIX path). -/
def NoAbsRCP (r : RouteInfo) : Prop :=
  ∀ s, r.resolvedComponentPath = some s → s.head? ≠ some '/'

/-- Invariant satisfied by every record the declaration extractors build. -/
def GoodDecl (r : RouteInfo) : Prop := FlagsConsistent r ∧ NoAbsRCP r

/-- A nonempty slash-free path segment. -/
def SegOk (x : Str) : Prop := x ≠ [] ∧ '/' ∉ x

/-- The seen-key set after dedup-inserting a list of routes. -/
def dedupSeen (seen : List Str) : List RouteInfo → List Str
  | [] => seen
  | r :: rs =>
    if routeKey r ∈ seen then dedupSeen seen rs
    else dedupSeen (routeKey r :: seen) rs

/-- A source file declaring exactly one JSX `<Route path=p />`. -/
def mkRouteFile (p fpath : Str) : SrcFile :=
  { path := fpath
    hasSignal := true
    parseOk := true
    imports := []
    jsxRoutes := [[(chars "path", .strLit p)]]
    browserRouterCalls := [] }

/-- Does a JSX attribute list carry a usable `path` (a string-literal-valued
`path` attribute)? -/
def hasUsableJSXPath (attrs : List (Str × JSXAttrVal)) : Bool :=
  attrs.any fun a =>
    a.1 = chars "path" &&
      (match a.2 with
       | .strLit _ => true
       | _ => false)

/-- Does an object-literal property list carry a usable `path` (a
string-literal-valued `path` property)? -/
def hasUsableObjPath (props : List (Str × PropVal)) : Bool :=
  props.any fun a =>
    a.1 = chars "path" &&
      (match a.2 with
       | .strLit _ => true
       | _ => false)

/-- Is an array element an object literal? -/
def isObjE : RObjElem → Bool
  | .objE _ => true
  | .nonObj => false

/-- Number of records a `createBrowserRouter` argument contributes: one per
object element of its array. -/
def countObjs : Option (List RObjElem) → Nat
  | some elems => (elems.filter isObjE).length
  | none => 0

/-! ## C1 — scenario 1 (Pages Router project) -/

/-- The scenario-1 project of the claim: a manifest declaring
`next: "14.0.0"` and the three Pages Router files. -/
def scenario1 : ProjectModel :=
  { pathStr := chars "/proj"
    pathExists := true
    hasPackageJson := true
    deps := [(chars "next", chars "14.0.0")]
    devDeps := []
    hasNextConfigJs := false
    hasNextConfigTs := false
    hasViteConfigJs := false
    hasViteConfigTs := false
    hasAppDir := false
    appFiles := []
    hasPagesDir := true
    pagesFiles := [chars "index.tsx", chars "users/[id].tsx", chars "blog/[...slug].tsx"]
    srcFiles := []
    ex := fun _ => false }

/-! ## C4 — the catchAll-implies-dynamic invariant -/

/-- The counterexample project for C4: a react-router-dom project declaring
`<Route path="*" />`. -/
def starRouteProject : ProjectModel :=
  { pathStr := chars "/p"
    pathExists := true
    hasPackageJson := true
    deps := [(chars "react-router-dom", chars "6.14.0")]
    devDeps := []
    hasNextConfigJs := false
    hasNextConfigTs := false
    hasViteConfigJs := false
    hasViteConfigTs := false
    hasAppDir := false
    appFiles := []
    hasPagesDir := false
    pagesFiles := []
    srcFiles := [{ path := chars "/p/src/App.tsx"
                   hasSignal := true
                   parseOk := true
                   imports := []
                   jsxRoutes := [[(chars "path", .strLit (chars "*"))]]
                   browserRouterCalls := [] }]
    ex := fun _ => false }

/-- The witness project for C4: a `<Route path=":*" />` record. -/
def colonStarRouteProject : ProjectModel :=
  { pathStr := chars "/p"
    pathExists := true
    hasPackageJson := true
    deps := [(chars "react-router-dom", chars "6.14.0")]
    devDeps := []
    hasNextConfigJs := false
    hasNextConfigTs := false
    hasViteConfigJs := false
    hasViteConfigTs := false
    hasAppDir := false
    appFiles := []
    hasPagesDir := false
    pagesFiles := []
    srcFiles := [{ path := chars "/p/src/App.tsx"
                   hasSignal := true
                   parseOk := true
                   imports := []
                   jsxRoutes := [[(chars "path", .strLit (chars ":*"))]]
                   browserRouterCalls := [] }]
    ex := fun _ => false }

/-- The witness project for C8: the route component is imported from the
external package `react-router-dom`, so `resolvedComponentPath` is the bare
specifier. -/
def externalComponentProject : ProjectModel :=
  { pathStr := chars "/p"
    pathExists := true
    hasPackageJson := true
    deps := [(chars "react-router-dom", chars "6.14.0")]
    devDeps := []
    hasNextConfigJs := false
    hasNextConfigTs := false
    hasViteConfigJs := false
    hasViteConfigTs := false
    hasAppDir := false
    appFiles := []
    hasPagesDir := false
    pagesFiles := []
    srcFiles := [{ path := chars "/p/src/App.tsx"
                   hasSignal := true
                   parseOk := true
                   imports := [(chars "Home", chars "react-router-dom")]
                   jsxRoutes := [[(chars "path", .strLit (chars "/")),
                                  (chars "component", .exprIdent (chars "Home"))]]
                   browserRouterCalls := [] }]
    ex := fun _ => false }

/-! ## C5 — deduplication by (path, component) in the rr strategy -/

/-- The record produced for `<Route path=p />` declared in file `fpath`. -/
def jsxPathRecord (pp fpath p : Str) : RouteInfo :=
  { path := p
    component := some (pathRelative pp fpath)
    children := []
    dynamic := some (strIncludes (chars ":") p)
    catchAll := some (strIncludes (chars "*") p)
    resolvedComponentPath := none
    importedComponent := none }

theorem findRB_eq {l : Str} : ∀ {b t : Str}, findRB l = some (b, t) →
    l = b ++ ']' :: t ∧ ']' ∉ b := by
  induction l with
  | nil => intro b t h; simp [findRB] at h
  | cons c r ih =>
    intro b t h
    simp only [findRB] at h
    split at h
    · rename_i hc
      simp only [Option.some.injEq, Prod.mk.injEq] at h
      obtain ⟨rfl, rfl⟩ := h
      simp [hc]
    · rename_i hc
      rw [Option.map_eq_some'] at h
      obtain ⟨⟨b0, t0⟩, hfr, hpair⟩ := h
      simp only [Prod.mk.injEq] at hpair
      obtain ⟨rfl, rfl⟩ := hpair
      have hr := ih hfr
      refine ⟨by simp [hr.1], ?_⟩
      intro hm
      rcases List.mem_cons.mp hm with h1 | h2
      · exact hc h1.symm
      · exact hr.2 h2

theorem findRB_tail_len {l b t : Str} (h : findRB l = some (b, t)) :
    t.length < l.length := by
  have := (findRB_eq h).1
  subst this
  simp
  omega

example : convertNextJSPagesPathToRoute (chars "index.tsx") = chars "/" := by decide

example : convertNextJSPagesPathToRoute (chars "users/[id].tsx") = chars "/users/:id" := by decide

example : convertNextJSPagesPathToRoute (chars "blog/[...slug].tsx") = chars "/blog/:...slug" := by decide

example : convertNextJSAppPathToRoute (chars "page.tsx") = chars "/page" := by decide

example : convertNextJSAppPathToRoute (chars "dashboard/page.tsx") = chars "/dashboard" := by decide

example : convertNextJSAppPathToRoute (chars "users/[id]/page.tsx") = chars "/users/:id" := by decide

example : pathRelative (chars "/proj") (chars "/proj/src/App.tsx") = chars "src/App.tsx" := by decide

example : pathDirname (chars "/proj/src/App.tsx") = chars "/proj/src" := by decide

example : pathExtname (chars "./pages/Home") = chars "" := by decide

example : pathExtname (chars "./pages/Home.tsx") = chars ".tsx" := by decide

example :
    resolveImportPath (fun p => p = chars "/proj/src/pages/Home.tsx")
      (chars "./pages/Home") (chars "/proj/src/App.tsx") (chars "/proj") =
    chars "src/pages/Home.tsx" := by decide

example :
    resolveImportPath (fun _ => false) (chars "react-router-dom")
      (chars "/proj/src/App.tsx") (chars "/proj") = chars "react-router-dom" := by decide

/-! ## Supporting lemmas -/

theorem strIncludes_nil_needle (l : Str) : strIncludes [] l = true := by
  induction l with
  | nil => rfl
  | cons c rest ih => simp [strIncludes, ih]

theorem strIncludes_append_right (n h t : Str) (hh : strIncludes n h = true) :
    strIncludes n (h ++ t) = true := by
  induction h with
  | nil =>
    simp only [strIncludes, List.isEmpty_iff] at hh
    subst hh
    simpa using strIncludes_nil_needle t
  | cons c rest ih =>
    simp only [strIncludes, Bool.or_eq_true, List.cons_append] at hh ⊢
    rcases hh with hp | hs
    · left
      rw [List.isPrefixOf_iff_prefix] at hp ⊢
      exact hp.trans (List.prefix_append (c :: rest) t)
    · right
      exact ih hs

/-- C1.  For a Next.js project with a `next: "14.0.0"` manifest and
pages/index.tsx, pages/users/[id].tsx, pages/blog/[...slug].tsx, the code
does report framework nextjs "14.0.0" and a route `/`, but the dynamic route
comes out as `/users/:id` with `dynamic = false` (the flag is derived from
the *converted* path, which no longer contains `[`), and the catch-all file
yields path `/blog/:...slug` — not `/blog/*` — because the plain-bracket
substitution runs before the spread substitution and consumes the
`[...slug]` segment.  This theorem evaluates the code at the claim's input,
exhibiting the divergence. -/
theorem c1_pages_router_eval :
    (extractSiteRoutes 0 scenario1).framework = ⟨.nextjs, some (chars "14.0.0")⟩ ∧
    (extractSiteRoutes 0 scenario1).routes.map (fun r => r.path) =
      [chars "/", chars "/users/:id", chars "/blog/:...slug"] ∧
    (extractSiteRoutes 0 scenario1).routes.map (fun r => r.dynamic) =
      [some false, some false, some true] ∧
    (extractSiteRoutes 0 scenario1).routes.map (fun r => r.catchAll) =
      [some false, some false, some true] ∧
    ¬ (chars "/blog/*") ∈ (extractSiteRoutes 0 scenario1).routes.map (fun r => r.path) := by
  decide

/-! ## C2 — app-style special basenames -/

/-- C2.  The app-style converter strips a special basename only together
with a *preceding slash* (`endsWith("/page")` etc.), so the claimed
"containing directory" rule fails exactly at the root: `page.tsx` maps to
`/page`, not to `/` — contradicting the repo's own test, which expects an
app route `/`.  The nested cases behave as claimed. -/
theorem c2_app_root_page_eval :
    convertNextJSAppPathToRoute (chars "page.tsx") = chars "/page" ∧
    chars "/page" ≠ chars "/" ∧
    (extractNextJSAppRoutes (chars "app/")
        [chars "page.tsx", chars "dashboard/page.tsx", chars "users/[id]/page.tsx"]).map
        (fun r => r.path) =
      [chars "/page", chars "/dashboard", chars "/users/:id"] := by
  decide

/-! ## C6 — config-file fallback order -/

/-- C6 counterexample.  A manifest-less project containing both
`next.config.js` and `vite.config.js`: `detectFramework` checks the next
config *first* (lines 119–124) and classifies the project as nextjs, not
vite as the claim states. -/
theorem c6_both_configs_counterexample :
    detectFramework
      { pathStr := chars "/p", pathExists := true, hasPackageJson := false
        deps := [], devDeps := []
        hasNextConfigJs := true, hasNextConfigTs := false
        hasViteConfigJs := true, hasViteConfigTs := false
        hasAppDir := false, appFiles := [], hasPagesDir := false, pagesFiles := []
        srcFiles := [], ex := fun _ => false } = ⟨.nextjs, none⟩ ∧
    (⟨.nextjs, none⟩ : FrameworkInfo) ≠ ⟨.vite, none⟩ := by
  constructor
  · rfl
  · decide

/-- C6 amended.  In the config-file fallback the *first* framework's config
(next.config.js/ts) is checked first; a manifest-less project is classified
as vite with no version exactly when it has a vite config file and no next
config file. -/
theorem c6_fallback_order (p : ProjectModel)
    (hm : p.hasPackageJson = false)
    (hn1 : p.hasNextConfigJs = false) (hn2 : p.hasNextConfigTs = false)
    (hv : (p.hasViteConfigJs || p.hasViteConfigTs) = true) :
    detectFramework p = ⟨.vite, none⟩ := by
  simp [detectFramework, hm, hn1, hn2, hv]

theorem c6_fallback_order_witness :
    detectFramework
      { pathStr := chars "/p", pathExists := true, hasPackageJson := false
        deps := [], devDeps := []
        hasNextConfigJs := false, hasNextConfigTs := false
        hasViteConfigJs := true, hasViteConfigTs := false
        hasAppDir := false, appFiles := [], hasPagesDir := false, pagesFiles := []
        srcFiles := [], ex := fun _ => false } = ⟨.vite, none⟩ :=
  c6_fallback_order _ rfl rfl rfl rfl

/-! ## C7 — nonexistent project root -/

/-- C7.  When the project root does not exist, `extractSiteRoutes` returns
immediately: exactly one error whose text contains "does not exist", no
routes, and an unknown framework.  The embedding is a total function, so no
exception can escape. -/
theorem c7_nonexistent_root (fuel : Nat) (p : ProjectModel)
    (h : p.pathExists = false) :
    (extractSiteRoutes fuel p).errors.length = 1 ∧
    (∀ e ∈ (extractSiteRoutes fuel p).errors,
        strIncludes (chars "does not exist") e = true) ∧
    (extractSiteRoutes fuel p).routes = [] ∧
    (extractSiteRoutes fuel p).framework = ⟨.unknown, none⟩ := by
  have hres : extractSiteRoutes fuel p =
      ⟨⟨.unknown, none⟩, [], [chars "Project path does not exist: " ++ p.pathStr]⟩ := by
    simp [extractSiteRoutes, h]
  rw [hres]
  refine ⟨rfl, ?_, rfl, rfl⟩
  intro e he
  simp only [List.mem_singleton] at he
  subst he
  exact strIncludes_append_right _ _ _ (by decide)

theorem c7_nonexistent_root_witness :
    (extractSiteRoutes 0
        { pathStr := chars "/missing", pathExists := false, hasPackageJson := false
          deps := [], devDeps := []
          hasNextConfigJs := false, hasNextConfigTs := false
          hasViteConfigJs := false, hasViteConfigTs := false
          hasAppDir := false, appFiles := [], hasPagesDir := false, pagesFiles := []
          srcFiles := [], ex := fun _ => false }).errors.length = 1 ∧
    (∀ e ∈ (extractSiteRoutes 0
        { pathStr := chars "/missing", pathExists := false, hasPackageJson := false
          deps := [], devDeps := []
          hasNextConfigJs := false, hasNextConfigTs := false
          hasViteConfigJs := false, hasViteConfigTs := false
          hasAppDir := false, appFiles := [], hasPagesDir := false, pagesFiles := []
          srcFiles := [], ex := fun _ => false }).errors,
        strIncludes (chars "does not exist") e = true) ∧
    (extractSiteRoutes 0
        { pathStr := chars "/missing", pathExists := false, hasPackageJson := false
          deps := [], devDeps := []
          hasNextConfigJs := false, hasNextConfigTs := false
          hasViteConfigJs := false, hasViteConfigTs := false
          hasAppDir := false, appFiles := [], hasPagesDir := false, pagesFiles := []
          srcFiles := [], ex := fun _ => false }).routes = [] ∧
    (extractSiteRoutes 0
        { pathStr := chars "/missing", pathExists := false, hasPackageJson := false
          deps := [], devDeps := []
          hasNextConfigJs := false, hasNextConfigTs := false
          hasViteConfigJs := false, hasViteConfigTs := false
          hasAppDir := false, appFiles := [], hasPagesDir := false, pagesFiles := []
          srcFiles := [], ex := fun _ => false }).framework = ⟨.unknown, none⟩ :=
  c7_nonexistent_root 0 _ rfl

/-! ## Path lemmas: relative results never start with a slash -/

theorem splitSlash_no_slash : ∀ (s : Str), ∀ c ∈ splitSlash s, '/' ∉ c := by
  intro s
  induction s with
  | nil => intro c hc; simp [splitSlash] at hc; subst hc; simp
  | cons a r ih =>
    intro c hc
    by_cases ha : a = '/'
    · simp only [splitSlash, if_pos ha, List.mem_cons] at hc
      rcases hc with rfl | hc
      · simp
      · exact ih c hc
    · simp only [splitSlash, if_neg ha] at hc
      cases hsp : splitSlash r with
      | nil => rw [hsp] at hc; simp at hc; subst hc; simpa using fun h => ha h.symm
      | cons h t =>
        rw [hsp] at hc
        simp only [List.mem_cons] at hc
        rcases hc with rfl | hc
        · intro hmem
          rcases List.mem_cons.mp hmem with h1 | h2
          · exact ha h1.symm
          · exact ih h (hsp ▸ List.mem_cons_self h t) h2
        · exact ih c (hsp ▸ List.mem_cons_of_mem h hc)

theorem normStack_ok : ∀ (l : List Str) (acc : List Str),
    (∀ x ∈ acc, SegOk x) → (∀ x ∈ l, '/' ∉ x) →
    ∀ x ∈ normStack acc l, SegOk x := by
  intro l
  induction l with
  | nil =>
    intro acc hacc _ x hx
    simp only [normStack] at hx
    exact hacc x (List.mem_reverse.mp hx)
  | cons s rest ih =>
    intro acc hacc hl x hx
    simp only [normStack] at hx
    split at hx
    · exact ih acc hacc (fun y hy => hl y (List.mem_cons_of_mem s hy)) x hx
    · split at hx
      · refine ih (acc.drop 1) (fun y hy => hacc y ?_) (fun y hy => hl y (List.mem_cons_of_mem s hy)) x hx
        exact List.drop_subset 1 acc hy
      · rename_i hne _
        refine ih (s :: acc) ?_ (fun y hy => hl y (List.mem_cons_of_mem s hy)) x hx
        intro y hy
        rcases List.mem_cons.mp hy with rfl | hy
        · exact ⟨fun h => hne (Or.inl h), hl y (List.mem_cons_self _ _)⟩
        · exact hacc y hy

theorem normSegs_ok (p : Str) : ∀ x ∈ normSegs p, SegOk x := by
  intro x hx
  exact normStack_ok (splitSlash p) [] (by simp) (splitSlash_no_slash p) x hx

theorem joinSlash_head (l : List Str) (h : ∀ x ∈ l, SegOk x) :
    (joinSlash l).head? ≠ some '/' := by
  cases l with
  | nil => simp [joinSlash]
  | cons s rest =>
    have hs := h s (List.mem_cons_self s rest)
    obtain ⟨hne, hnsl⟩ := hs
    cases s with
    | nil => exact absurd rfl hne
    | cons c cs =>
      have hc : c ≠ '/' := fun hcc => hnsl (hcc ▸ List.mem_cons_self c cs)
      cases rest with
      | nil => simpa [joinSlash] using fun hcc => hc hcc
      | cons s2 rest2 => simpa [joinSlash] using fun hcc => hc hcc

theorem dropCommon_right_sub : ∀ (u v : List Str), ∀ x ∈ (dropCommon u v).2, x ∈ v := by
  intro u
  induction u with
  | nil => intro v x hx; simpa [dropCommon] using hx
  | cons a as ih =>
    intro v x hx
    cases v with
    | nil => simp [dropCommon] at hx
    | cons b bs =>
      by_cases hab : a = b
      · simp only [dropCommon, if_pos hab] at hx
        exact List.mem_cons_of_mem b (ih bs x hx)
      · simp only [dropCommon, if_neg hab] at hx
        exact hx

theorem pathRelative_not_abs (a b : Str) : (pathRelative a b).head? ≠ some '/' := by
  unfold pathRelative
  apply joinSlash_head
  intro x hx
  rcases List.mem_append.mp hx with h1 | h2
  · have := List.eq_of_mem_replicate h1
    subst this
    exact ⟨by simp [chars], by decide⟩
  · exact normSegs_ok b x (dropCommon_right_sub _ _ x h2)

theorem getRelativePath_not_abs (f p : Str) : (getRelativePath f p).head? ≠ some '/' :=
  pathRelative_not_abs p f

theorem resolveImportPath_not_abs (ex : Str → Bool) (ip cf pp : Str) :
    (resolveImportPath ex ip cf pp).head? ≠ some '/' := by
  unfold resolveImportPath
  dsimp only
  split
  · split
    · split
      · exact getRelativePath_not_abs _ _
      · exact getRelativePath_not_abs _ _
    · exact getRelativePath_not_abs _ _
  · split
    · exact getRelativePath_not_abs _ _
    · rename_i hdot hrest
      intro hh
      exact hrest (Or.inl hh)

/-! ## Invariants of the declaration extractors -/

theorem initialRouteInfo_good (pp fp : Str) : GoodDecl (initialRouteInfo pp fp) := by
  constructor
  · exact Or.inl ⟨rfl, rfl⟩
  · intro s hs
    simp [initialRouteInfo] at hs

theorem resolveComponentIdent_fields (ex : Str → Bool) (pp fp : Str)
    (imp : List (Str × Str)) (r : RouteInfo) (n : Str) :
    (resolveComponentIdent ex pp fp imp r n).path = r.path ∧
    (resolveComponentIdent ex pp fp imp r n).dynamic = r.dynamic ∧
    (resolveComponentIdent ex pp fp imp r n).catchAll = r.catchAll ∧
    (resolveComponentIdent ex pp fp imp r n).children = r.children := by
  unfold resolveComponentIdent
  cases mget imp n <;> simp

theorem resolveComponentIdent_good (ex : Str → Bool) (pp fp : Str)
    (imp : List (Str × Str)) (r : RouteInfo) (n : Str) (h : GoodDecl r) :
    GoodDecl (resolveComponentIdent ex pp fp imp r n) := by
  obtain ⟨hf, hn⟩ := h
  unfold resolveComponentIdent
  cases hm : mget imp n with
  | none => exact ⟨hf, hn⟩
  | some ip =>
    constructor
    · rcases hf with ⟨h1, h2⟩ | ⟨h1, h2⟩
      · exact Or.inl ⟨h1, h2⟩
      · exact Or.inr ⟨h1, h2⟩
    · intro s hs
      simp only [Option.some.injEq] at hs
      subst hs
      exact resolveImportPath_not_abs ex ip fp pp

theorem applyJSXAttr_inv (ex : Str → Bool) (pp fp : Str) (imp : List (Str × Str))
    (r : RouteInfo) (a : Str × JSXAttrVal) (h : GoodDecl r) :
    GoodDecl (applyJSXAttr ex pp fp imp r a) ∧
    (applyJSXAttr ex pp fp imp r a).children = r.children := by
  unfold applyJSXAttr
  split
  · match a.2 with
    | .strLit s => exact ⟨⟨Or.inr ⟨rfl, rfl⟩, fun s2 hs2 => h.2 s2 hs2⟩, rfl⟩
    | .exprIdent n => exact ⟨h, rfl⟩
    | .exprJSXEl t => exact ⟨h, rfl⟩
    | .otherAttr => exact ⟨h, rfl⟩
  · split
    · match a.2 with
      | .strLit s => exact ⟨h, rfl⟩
      | .exprIdent n =>
        exact ⟨resolveComponentIdent_good ex pp fp imp r n h,
          (resolveComponentIdent_fields ex pp fp imp r n).2.2.2⟩
      | .exprJSXEl t => exact ⟨h, rfl⟩
      | .otherAttr => exact ⟨h, rfl⟩
    · split
      · match a.2 with
        | .strLit s => exact ⟨h, rfl⟩
        | .exprIdent n => exact ⟨h, rfl⟩
        | .exprJSXEl t =>
          exact ⟨resolveComponentIdent_good ex pp fp imp r t h,
            (resolveComponentIdent_fields ex pp fp imp r t).2.2.2⟩
        | .otherAttr => exact ⟨h, rfl⟩
      · exact ⟨h, rfl⟩

theorem foldJSX_inv (ex : Str → Bool) (pp fp : Str) (imp : List (Str × Str)) :
    ∀ (attrs : List (Str × JSXAttrVal)) (r : RouteInfo), GoodDecl r →
      GoodDecl (attrs.foldl (applyJSXAttr ex pp fp imp) r) ∧
      (attrs.foldl (applyJSXAttr ex pp fp imp) r).children = r.children := by
  intro attrs
  induction attrs with
  | nil => intro r h; exact ⟨h, rfl⟩
  | cons a rest ih =>
    intro r h
    have step := applyJSXAttr_inv ex pp fp imp r a h
    have tail := ih (applyJSXAttr ex pp fp imp r a) step.1
    exact ⟨tail.1, tail.2.trans step.2⟩

theorem applyObjProp_inv (H : List RObjElem → List RouteInfo) (ex : Str → Bool)
    (pp fp : Str) (imp : List (Str × Str)) (r : RouteInfo) (a : Str × PropVal)
    (h : GoodDecl r) :
    GoodDecl (applyObjProp H ex pp fp imp r a) ∧
    ((applyObjProp H ex pp fp imp r a).children = r.children ∨
      ∃ cs, (applyObjProp H ex pp fp imp r a).children = H cs) := by
  unfold applyObjProp
  split
  · match a.2 with
    | .strLit s => exact ⟨⟨Or.inr ⟨rfl, rfl⟩, fun s2 hs2 => h.2 s2 hs2⟩, Or.inl rfl⟩
    | .identV n => exact ⟨h, Or.inl rfl⟩
    | .jsxEl t => exact ⟨h, Or.inl rfl⟩
    | .childArr cs => exact ⟨h, Or.inl rfl⟩
    | .otherV => exact ⟨h, Or.inl rfl⟩
  · split
    · match a.2 with
      | .strLit s => exact ⟨h, Or.inl rfl⟩
      | .identV n =>
        exact ⟨resolveComponentIdent_good ex pp fp imp r n h,
          Or.inl (resolveComponentIdent_fields ex pp fp imp r n).2.2.2⟩
      | .jsxEl t => exact ⟨h, Or.inl rfl⟩
      | .childArr cs => exact ⟨h, Or.inl rfl⟩
      | .otherV => exact ⟨h, Or.inl rfl⟩
    · split
      · match a.2 with
        | .strLit s => exact ⟨h, Or.inl rfl⟩
        | .identV n => exact ⟨h, Or.inl rfl⟩
        | .jsxEl t =>
          exact ⟨resolveComponentIdent_good ex pp fp imp r t h,
            Or.inl (resolveComponentIdent_fields ex pp fp imp r t).2.2.2⟩
        | .childArr cs => exact ⟨h, Or.inl rfl⟩
        | .otherV => exact ⟨h, Or.inl rfl⟩
      · split
        · match a.2 with
          | .strLit s => exact ⟨h, Or.inl rfl⟩
          | .identV n => exact ⟨h, Or.inl rfl⟩
          | .jsxEl t => exact ⟨h, Or.inl rfl⟩
          | .childArr cs =>
            refine ⟨⟨?_, fun s2 hs2 => h.2 s2 hs2⟩, Or.inr ⟨cs, rfl⟩⟩
            rcases h.1 with ⟨h1, h2⟩ | ⟨h1, h2⟩
            · exact Or.inl ⟨h1, h2⟩
            · exact Or.inr ⟨h1, h2⟩
          | .otherV => exact ⟨h, Or.inl rfl⟩
        · exact ⟨h, Or.inl rfl⟩

theorem foldObj_inv (H : List RObjElem → List RouteInfo) (ex : Str → Bool)
    (pp fp : Str) (imp : List (Str × Str)) :
    ∀ (props : List (Str × PropVal)) (r : RouteInfo), GoodDecl r →
      GoodDecl (props.foldl (applyObjProp H ex pp fp imp) r) ∧
      ((props.foldl (applyObjProp H ex pp fp imp) r).children = r.children ∨
        ∃ cs, (props.foldl (applyObjProp H ex pp fp imp) r).children = H cs) := by
  intro props
  induction props with
  | nil => intro r h; exact ⟨h, Or.inl rfl⟩
  | cons a rest ih =>
    intro r h
    have step := applyObjProp_inv H ex pp fp imp r a h
    have tail := ih (applyObjProp H ex pp fp imp r a) step.1
    refine ⟨tail.1, ?_⟩
    rcases tail.2 with h2 | ⟨cs, h2⟩
    · rcases step.2 with h3 | ⟨cs, h3⟩
      · exact Or.inl (h2.trans h3)
      · exact Or.inr ⟨cs, h2.trans h3⟩
    · exact Or.inr ⟨cs, h2⟩

/-! ## Flatten lemmas -/

theorem flattenRoutes_nil (f : Nat) : flattenRoutes f [] = [] := by
  cases f <;> simp [flattenRoutes]

theorem flattenRoutes_append (f : Nat) (l1 l2 : List RouteInfo) :
    flattenRoutes f (l1 ++ l2) = flattenRoutes f l1 ++ flattenRoutes f l2 := by
  cases f <;> simp [flattenRoutes]

theorem mem_flattenRoutes {f : Nat} {l : List RouteInfo} {r : RouteInfo} :
    r ∈ flattenRoutes f l ↔ ∃ x ∈ l, r ∈ flattenRoutes f [x] := by
  cases f with
  | zero => simp [flattenRoutes]
  | succ n => simp [flattenRoutes, List.mem_flatMap]

theorem extractObj_flatten_good (ex : Str → Bool) (pp fp : Str)
    (imp : List (Str × Str)) :
    ∀ (ff fuel : Nat) (props : List (Str × PropVal)) (r : RouteInfo),
      r ∈ flattenRoutes ff [extractRouteFromObjectExpression ex pp fp imp fuel props] →
      GoodDecl r := by
  intro ff
  induction ff with
  | zero =>
    intro fuel props r hr
    simp only [flattenRoutes, List.mem_singleton] at hr
    subst hr
    cases fuel with
    | zero =>
      exact (foldObj_inv _ ex pp fp imp props _ (initialRouteInfo_good pp fp)).1
    | succ fu =>
      exact (foldObj_inv _ ex pp fp imp props _ (initialRouteInfo_good pp fp)).1
  | succ n ih =>
    intro fuel props r hr
    simp only [flattenRoutes, List.flatMap_cons, List.flatMap_nil, List.append_nil,
      List.mem_cons] at hr
    rcases hr with rfl | hr
    · cases fuel with
      | zero =>
        exact (foldObj_inv _ ex pp fp imp props _ (initialRouteInfo_good pp fp)).1
      | succ fu =>
        exact (foldObj_inv _ ex pp fp imp props _ (initialRouteInfo_good pp fp)).1
    · cases fuel with
      | zero =>
        have hch := (foldObj_inv (fun _ => ([] : List RouteInfo)) ex pp fp imp props _
          (initialRouteInfo_good pp fp)).2
        rcases hch with hc | ⟨cs, hc⟩ <;>
          · rw [show (extractRouteFromObjectExpression ex pp fp imp 0 props).children = [] by
                simpa [extractRouteFromObjectExpression, initialRouteInfo] using hc] at hr
            simp [flattenRoutes_nil] at hr
      | succ fu =>
        have hch := (foldObj_inv
          (fun cs => cs.filterMap fun e =>
            match e with
            | .objE ps => some (extractRouteFromObjectExpression ex pp fp imp fu ps)
            | .nonObj => none) ex pp fp imp props _ (initialRouteInfo_good pp fp)).2
        have hunf : extractRouteFromObjectExpression ex pp fp imp (fu + 1) props =
            props.foldl
              (applyObjProp
                (fun cs => cs.filterMap fun e =>
                  match e with
                  | .objE ps => some (extractRouteFromObjectExpression ex pp fp imp fu ps)
                  | .nonObj => none) ex pp fp imp)
              (initialRouteInfo pp fp) := rfl
        rw [hunf] at hr
        rcases hch with hc | ⟨cs, hc⟩
        · rw [hc] at hr
          simp [initialRouteInfo, flattenRoutes_nil] at hr
        · rw [hc] at hr
          rw [mem_flattenRoutes] at hr
          obtain ⟨x, hx, hrx⟩ := hr
          rw [List.mem_filterMap] at hx
          obtain ⟨e, _, he⟩ := hx
          cases e with
          | objE ps =>
            simp only [Option.some.injEq] at he
            subst he
            exact ih fu ps r hrx
          | nonObj => simp at he

theorem jsx_flatten_good (ex : Str → Bool) (pp fp : Str) (imp : List (Str × Str))
    (attrs : List (Str × JSXAttrVal)) (x r : RouteInfo) (ff : Nat)
    (hx : extractRouteFromJSXElement ex pp fp imp attrs = some x)
    (hr : r ∈ flattenRoutes ff [x]) : GoodDecl r := by
  have hfold := foldJSX_inv ex pp fp imp attrs (initialRouteInfo pp fp)
    (initialRouteInfo_good pp fp)
  simp only [extractRouteFromJSXElement, Option.some.injEq] at hx
  subst hx
  cases ff with
  | zero =>
    simp only [flattenRoutes, List.mem_singleton] at hr
    subst hr
    exact hfold.1
  | succ n =>
    simp only [flattenRoutes, List.flatMap_cons, List.flatMap_nil, List.append_nil,
      List.mem_cons] at hr
    rcases hr with rfl | hr
    · exact hfold.1
    · rw [hfold.2] at hr
      simp [initialRouteInfo, flattenRoutes_nil] at hr

theorem perfile_single_good (ex : Str → Bool) (pp : Str) (fuel : Nat) (f : SrcFile)
    (x : RouteInfo) (hx : x ∈ extractReactRouterRoutesFromFile ex pp fuel f)
    (ff : Nat) (r : RouteInfo) (hr : r ∈ flattenRoutes ff [x]) : GoodDecl r := by
  unfold extractReactRouterRoutesFromFile at hx
  split at hx
  · rcases List.mem_append.mp hx with h1 | h2
    · obtain ⟨attrs, _, hsome⟩ := List.mem_filterMap.mp h1
      exact jsx_flatten_good ex pp f.path f.imports attrs x r ff hsome hr
    · rw [List.mem_flatten] at h2
      obtain ⟨lst, hlst, hxl⟩ := h2
      rw [List.mem_map] at hlst
      obtain ⟨call, _, hcall⟩ := hlst
      subst hcall
      unfold extractRoutesFromCreateBrowserRouter at hxl
      split at hxl
      · obtain ⟨e, _, he⟩ := List.mem_filterMap.mp hxl
        cases e with
        | objE ps =>
          simp only [Option.some.injEq] at he
          subst he
          exact extractObj_flatten_good ex pp f.path f.imports ff fuel ps r hr
        | nonObj => simp at he
      · simp at hxl
  · simp at hx

theorem extractViteRoutes_eq_flatMap (ex : Str → Bool) (pp : Str) (fuel : Nat)
    (files : List SrcFile) :
    extractViteRoutes ex pp fuel files =
      files.flatMap fun f =>
        if f.hasSignal then extractReactRouterRoutesFromFile ex pp fuel f else [] := by
  have hgen : ∀ (fs : List SrcFile) (acc : List RouteInfo),
      fs.foldl
        (fun acc f =>
          if f.hasSignal then acc ++ extractReactRouterRoutesFromFile ex pp fuel f else acc)
        acc =
      acc ++ fs.flatMap fun f =>
        if f.hasSignal then extractReactRouterRoutesFromFile ex pp fuel f else [] := by
    intro fs
    induction fs with
    | nil => intro acc; simp
    | cons f rest ih =>
      intro acc
      by_cases hs : f.hasSignal
      · simp only [List.foldl_cons, if_pos hs, List.flatMap_cons, ih, List.append_assoc]
      · simp only [List.foldl_cons, if_neg hs, List.flatMap_cons, ih]
        simp
  simpa [extractViteRoutes] using hgen files []

theorem addRoutesDedup_eq : ∀ (rs : List RouteInfo) (seen : List Str) (acc : List RouteInfo),
    addRoutesDedup seen acc rs = (dedupSeen seen rs, acc ++ dedupeRoutes seen rs) := by
  intro rs
  induction rs with
  | nil => intro seen acc; simp [addRoutesDedup, dedupSeen, dedupeRoutes]
  | cons r rest ih =>
    intro seen acc
    by_cases hk : routeKey r ∈ seen
    · simp only [addRoutesDedup, dedupSeen, dedupeRoutes, if_pos hk]
      exact ih seen acc
    · simp only [addRoutesDedup, dedupSeen, dedupeRoutes, if_neg hk]
      rw [ih (routeKey r :: seen) (acc ++ [r])]
      simp

theorem dedupeRoutes_append (l1 : List RouteInfo) : ∀ (seen : List Str) (l2 : List RouteInfo),
    dedupeRoutes seen (l1 ++ l2) =
      dedupeRoutes seen l1 ++ dedupeRoutes (dedupSeen seen l1) l2 := by
  induction l1 with
  | nil => intro seen l2; simp [dedupeRoutes, dedupSeen]
  | cons r rest ih =>
    intro seen l2
    by_cases hk : routeKey r ∈ seen
    · simp only [List.cons_append, dedupeRoutes, dedupSeen, if_pos hk]
      exact ih seen l2
    · simp only [List.cons_append, dedupeRoutes, dedupSeen, if_neg hk, List.append_eq]
      rw [ih (routeKey r :: seen) l2]

theorem dedupSeen_append (l1 : List RouteInfo) : ∀ (seen : List Str) (l2 : List RouteInfo),
    dedupSeen seen (l1 ++ l2) = dedupSeen (dedupSeen seen l1) l2 := by
  induction l1 with
  | nil => intro seen l2; simp [dedupSeen]
  | cons r rest ih =>
    intro seen l2
    by_cases hk : routeKey r ∈ seen
    · simp only [List.cons_append, dedupSeen, if_pos hk]
      exact ih seen l2
    · simp only [List.cons_append, dedupSeen, if_neg hk]
      exact ih (routeKey r :: seen) l2

theorem extractReactRouterRoutes_eq_dedupe (ex : Str → Bool) (pp : Str) (fuel : Nat)
    (files : List SrcFile) :
    extractReactRouterRoutes ex pp fuel files =
      dedupeRoutes [] (extractViteRoutes ex pp fuel files) := by
  have hgen : ∀ (fs : List SrcFile) (seen : List Str) (acc : List RouteInfo),
      (fs.foldl
        (fun st f =>
          if f.hasSignal then addRoutesDedup st.1 st.2 (extractReactRouterRoutesFromFile ex pp fuel f)
          else st)
        (seen, acc)) =
      (dedupSeen seen
          (fs.flatMap fun f =>
            if f.hasSignal then extractReactRouterRoutesFromFile ex pp fuel f else []),
        acc ++ dedupeRoutes seen
          (fs.flatMap fun f =>
            if f.hasSignal then extractReactRouterRoutesFromFile ex pp fuel f else [])) := by
    intro fs
    induction fs with
    | nil => intro seen acc; simp [dedupSeen, dedupeRoutes]
    | cons f rest ih =>
      intro seen acc
      by_cases hs : f.hasSignal
      · simp only [List.foldl_cons, if_pos hs, List.flatMap_cons,
          addRoutesDedup_eq (extractReactRouterRoutesFromFile ex pp fuel f) seen acc]
        rw [ih]
        rw [dedupeRoutes_append, dedupSeen_append, List.append_assoc]
      · simp only [List.foldl_cons, if_neg hs, List.flatMap_cons, List.nil_append]
        exact ih seen acc
  have h2 := hgen files [] []
  rw [extractReactRouterRoutes, h2, extractViteRoutes_eq_flatMap]
  simp

theorem dedupeRoutes_subset : ∀ (l : List RouteInfo) (seen : List Str) (r : RouteInfo),
    r ∈ dedupeRoutes seen l → r ∈ l := by
  intro l
  induction l with
  | nil => intro seen r hr; simp [dedupeRoutes] at hr
  | cons x rest ih =>
    intro seen r hr
    by_cases hk : routeKey x ∈ seen
    · simp only [dedupeRoutes, if_pos hk] at hr
      exact List.mem_cons_of_mem x (ih seen r hr)
    · simp only [dedupeRoutes, if_neg hk, List.mem_cons] at hr
      rcases hr with rfl | hr
      · exact List.mem_cons_self _ _
      · exact List.mem_cons_of_mem x (ih _ r hr)

/-! ## Shape of the Next.js convention records -/

theorem extractNextJSAppRoutes_mem {pfx : Str} {files : List Str} {x : RouteInfo}
    (hx : x ∈ extractNextJSAppRoutes pfx files) :
    ∃ rel ∈ files, convertNextJSAppPathToRoute rel ≠ [] ∧
      x = { path := convertNextJSAppPathToRoute rel
            component := some rel
            children := []
            dynamic := some (strIncludes (chars "[") (convertNextJSAppPathToRoute rel) ||
              strIncludes (chars "...") (convertNextJSAppPathToRoute rel))
            catchAll := some (strIncludes (chars "...") (convertNextJSAppPathToRoute rel))
            resolvedComponentPath := some (pfx ++ rel)
            importedComponent := none } := by
  unfold extractNextJSAppRoutes at hx
  obtain ⟨rel, hrel, hsome⟩ := List.mem_filterMap.mp hx
  dsimp only at hsome
  split at hsome
  · simp at hsome
  · rename_i hne
    simp only [Option.some.injEq] at hsome
    exact ⟨rel, hrel, hne, hsome.symm⟩

theorem extractNextJSPagesRoutes_mem {pfx : Str} {files : List Str} {x : RouteInfo}
    (hx : x ∈ extractNextJSPagesRoutes pfx files) :
    ∃ rel ∈ files, convertNextJSPagesPathToRoute rel ≠ [] ∧
      x = { path := convertNextJSPagesPathToRoute rel
            component := some rel
            children := []
            dynamic := some (strIncludes (chars "[") (convertNextJSPagesPathToRoute rel) ||
              strIncludes (chars "...") (convertNextJSPagesPathToRoute rel))
            catchAll := some (strIncludes (chars "...") (convertNextJSPagesPathToRoute rel))
            resolvedComponentPath := some (pfx ++ rel)
            importedComponent := none } := by
  unfold extractNextJSPagesRoutes at hx
  obtain ⟨rel, hrel, hsome⟩ := List.mem_filterMap.mp hx
  dsimp only at hsome
  split at hsome
  · simp at hsome
  · rename_i hne
    simp only [Option.some.injEq] at hsome
    exact ⟨rel, hrel, hne, hsome.symm⟩

theorem extractNextJSRoutes_shape (p : ProjectModel) :
    ∀ x ∈ extractNextJSRoutes p,
      x.children = [] ∧ NoAbsRCP x ∧ (x.catchAll = some true → x.dynamic = some true) := by
  intro x hx
  unfold extractNextJSRoutes at hx
  have main : ∀ (pfx0 : Str) (c0 : Char) (cs0 rel : Str), pfx0 = c0 :: cs0 → c0 ≠ '/' →
      ∀ rp : Str,
        x = { path := rp
              component := some rel
              children := []
              dynamic := some (strIncludes (chars "[") rp || strIncludes (chars "...") rp)
              catchAll := some (strIncludes (chars "...") rp)
              resolvedComponentPath := some (pfx0 ++ rel)
              importedComponent := none } →
        x.children = [] ∧ NoAbsRCP x ∧ (x.catchAll = some true → x.dynamic = some true) := by
    intro pfx0 c0 cs0 rel hpfx hc0 rp hxeq
    subst hxeq
    refine ⟨rfl, ?_, ?_⟩
    · intro s hs
      simp only [Option.some.injEq] at hs
      subst hs
      rw [hpfx]
      simp only [List.cons_append, List.head?_cons, Option.some.injEq]
      exact fun h => hc0 (Option.some.inj h)
    · intro hca
      simp only [Option.some.injEq] at hca
      simp only [hca, Bool.or_true, Option.some.injEq]
  rcases List.mem_append.mp hx with h1 | h2
  · split at h1
    · obtain ⟨rel, _, _, hxeq⟩ := extractNextJSAppRoutes_mem h1
      exact main (chars "app/") 'a' (chars "pp/") rel rfl (by decide) _ hxeq
    · simp at h1
  · split at h2
    · obtain ⟨rel, _, _, hxeq⟩ := extractNextJSPagesRoutes_mem h2
      exact main (chars "pages/") 'p' (chars "ages/") rel rfl (by decide) _ hxeq
    · simp at h2

theorem convertNextJSAppPathToRoute_head (f : Str) :
    (convertNextJSAppPathToRoute f).head? = some '/' := by
  unfold convertNextJSAppPathToRoute
  dsimp only
  set r3 := replSpread (replDyn (stripSpecial (stripExt f))) with hr3
  by_cases h1 : r3 = chars "index"
  · simp [h1, chars]
  · by_cases h2 : r3.head? = some '/'
    · have hne : r3 ≠ [] := by
        intro h
        rw [h] at h2
        simp at h2
      simp [h1, h2, hne]
    · simp [h1, h2]

/-! ## Bracket well-formedness and the substitutions -/

theorem replDynAux_noBrk : ∀ (fuel : Nat) (l : Str), l.length ≤ fuel →
    wfBracketsAux fuel l = true →
    '[' ∉ replDynAux fuel l ∧ ']' ∉ replDynAux fuel l := by
  intro fuel
  induction fuel with
  | zero =>
    intro l hl _
    have : l = [] := List.eq_nil_of_length_eq_zero (Nat.le_zero.mp hl)
    subst this
    simp [replDynAux]
  | succ fu ih =>
    intro l hl hwf
    cases l with
    | nil => simp [replDynAux]
    | cons c rest =>
      simp only [List.length_cons, Nat.add_le_add_iff_right] at hl
      simp only [wfBracketsAux] at hwf
      simp only [replDynAux]
      by_cases hc : c = '['
      · rw [if_pos hc] at hwf ⊢
        cases hfr : findRB rest with
        | none => rw [hfr] at hwf; simp at hwf
        | some bt =>
          obtain ⟨b, t⟩ := bt
          rw [hfr] at hwf
          dsimp only at hwf ⊢
          by_cases hb : b = []
          · rw [if_pos hb] at hwf; simp at hwf
          · rw [if_neg hb] at hwf ⊢
            by_cases hbl : '[' ∈ b
            · rw [if_pos hbl] at hwf; simp at hwf
            · rw [if_neg hbl] at hwf
              have htlen : t.length ≤ fu := by
                have := findRB_tail_len hfr
                omega
              have hrec := ih t htlen hwf
              have hbr : ']' ∉ b := (findRB_eq hfr).2
              constructor
              · intro hmem
                rcases List.mem_cons.mp hmem with h1 | h2
                · exact absurd h1.symm (by decide)
                · rcases List.mem_append.mp h2 with h3 | h4
                  · exact hbl h3
                  · exact hrec.1 h4
              · intro hmem
                rcases List.mem_cons.mp hmem with h1 | h2
                · exact absurd h1.symm (by decide)
                · rcases List.mem_append.mp h2 with h3 | h4
                  · exact hbr h3
                  · exact hrec.2 h4
      · rw [if_neg hc] at hwf ⊢
        by_cases hc2 : c = ']'
        · rw [if_pos hc2] at hwf; simp at hwf
        · rw [if_neg hc2] at hwf
          have hrec := ih rest hl hwf
          constructor
          · intro hmem
            rcases List.mem_cons.mp hmem with h1 | h2
            · exact hc h1.symm
            · exact hrec.1 h2
          · intro hmem
            rcases List.mem_cons.mp hmem with h1 | h2
            · exact hc2 h1.symm
            · exact hrec.2 h2

theorem replSpreadAux_id : ∀ (fuel : Nat) (l : Str), '[' ∉ l →
    replSpreadAux fuel l = l := by
  intro fuel
  induction fuel with
  | zero => intro l _; rfl
  | succ fu ih =>
    intro l hl
    cases l with
    | nil => rfl
    | cons c rest =>
      have hc : c ≠ '[' := fun h => hl (h ▸ List.mem_cons_self _ _)
      simp only [replSpreadAux, if_neg hc]
      rw [ih rest fun h => hl (List.mem_cons_of_mem c h)]

theorem convertNextJSAppPathToRoute_noBrk (f : Str)
    (hwf : wfBrackets (stripSpecial (stripExt f)) = true) :
    '[' ∉ convertNextJSAppPathToRoute f ∧ ']' ∉ convertNextJSAppPathToRoute f := by
  have h1 := replDynAux_noBrk (stripSpecial (stripExt f)).length _ le_rfl hwf
  have h2 : replSpread (replDyn (stripSpecial (stripExt f))) =
      replDyn (stripSpecial (stripExt f)) := replSpreadAux_id _ _ h1.1
  unfold convertNextJSAppPathToRoute
  dsimp only
  rw [h2]
  set r3 := replDyn (stripSpecial (stripExt f)) with hr3
  by_cases hidx : r3 = chars "index"
  · rw [if_pos hidx]
    simp [chars]
  · rw [if_neg hidx]
    by_cases hh : r3.head? = some '/'
    · rw [if_pos hh]
      have hne : r3 ≠ [] := by
        intro h
        rw [h] at hh
        simp at hh
      rw [if_neg hne]
      exact h1
    · rw [if_neg hh]
      have : ('/' :: r3) ≠ [] := by simp
      rw [if_neg this]
      constructor
      · intro hmem
        rcases List.mem_cons.mp hmem with hx | hx
        · exact absurd hx.symm (by decide)
        · exact h1.1 hx
      · intro hmem
        rcases List.mem_cons.mp hmem with hx | hx
        · exact absurd hx.symm (by decide)
        · exact h1.2 hx

/-! ## Pipeline-level invariant -/

theorem flatten_single_childfree {ff : Nat} {x r : RouteInfo} (hc : x.children = [])
    (h : r ∈ flattenRoutes ff [x]) : r = x := by
  cases ff with
  | zero => simpa [flattenRoutes] using h
  | succ n =>
    simp only [flattenRoutes, List.flatMap_cons, List.flatMap_nil, List.append_nil,
      List.mem_cons, hc, flattenRoutes_nil, List.not_mem_nil, or_false] at h
    exact h

theorem extractViteRoutes_mem {ex : Str → Bool} {pp : Str} {fuel : Nat}
    {files : List SrcFile} {x : RouteInfo} (hx : x ∈ extractViteRoutes ex pp fuel files) :
    ∃ f ∈ files, x ∈ extractReactRouterRoutesFromFile ex pp fuel f := by
  rw [extractViteRoutes_eq_flatMap] at hx
  obtain ⟨f, hf, hxf⟩ := List.mem_flatMap.mp hx
  by_cases hs : f.hasSignal
  · rw [if_pos hs] at hxf
    exact ⟨f, hf, hxf⟩
  · rw [if_neg hs] at hxf
    simp at hxf

theorem extractSiteRoutes_flatten_inv (ff fuel : Nat) (p : ProjectModel) (r : RouteInfo)
    (hr : r ∈ flattenRoutes ff (extractSiteRoutes fuel p).routes) :
    NoAbsRCP r ∧
      (r.catchAll = some true →
        (strIncludes (chars "*") r.path = true → strIncludes (chars ":") r.path = true) →
        r.dynamic = some true) := by
  have declGood : ∀ x ∈ extractViteRoutes p.ex p.pathStr fuel p.srcFiles,
      r ∈ flattenRoutes ff [x] →
      NoAbsRCP r ∧
        (r.catchAll = some true →
          (strIncludes (chars "*") r.path = true → strIncludes (chars ":") r.path = true) →
          r.dynamic = some true) := by
    intro x hx hrx
    obtain ⟨f, _, hxf⟩ := extractViteRoutes_mem hx
    have hgood := perfile_single_good p.ex p.pathStr fuel f x hxf ff r hrx
    refine ⟨hgood.2, ?_⟩
    intro hca hpath
    rcases hgood.1 with ⟨hd, hc⟩ | ⟨hd, hc⟩
    · rw [hc] at hca
      exact absurd hca (by simp)
    · rw [hc] at hca
      have hstar := Option.some.inj hca
      rw [hd, hpath hstar]
  unfold extractSiteRoutes at hr
  split at hr
  · dsimp only at hr
    cases hfw : (detectFramework p).name
    all_goals rw [hfw] at hr
    all_goals dsimp only at hr
    · -- nextjs
      obtain ⟨x, hx, hrx⟩ := mem_flattenRoutes.mp hr
      have hshape := extractNextJSRoutes_shape p x hx
      have : r = x := flatten_single_childfree hshape.1 hrx
      subst this
      exact ⟨hshape.2.1, fun hca _ => hshape.2.2 hca⟩
    · -- vite
      obtain ⟨x, hx, hrx⟩ := mem_flattenRoutes.mp hr
      exact declGood x hx hrx
    · -- react-router-dom
      rw [extractReactRouterRoutes_eq_dedupe] at hr
      obtain ⟨x, hx, hrx⟩ := mem_flattenRoutes.mp hr
      exact declGood x (dedupeRoutes_subset _ _ _ hx) hrx
    · -- unknown
      simp [flattenRoutes_nil] at hr
  · simp [flattenRoutes_nil] at hr

/-! ## C3 — shape of first-convention route paths -/

/-- C3 counterexample.  The app-style converter leaves `:...slug` (no `*`) for
a spread segment while still setting `catchAll = true` (derived from `"..."`),
so "catchAll iff the path contains `*`" fails; and an input whose brackets do
not form a nonempty group (here the directory `[]`) survives into the route
path, so "contains no `[` or `]`" fails as well. -/
theorem c3_app_shape_counterexample :
    ((extractNextJSAppRoutes (chars "app/") [chars "blog/[...slug]/page.tsx"]).map
        (fun r => (r.path, r.catchAll)) = [(chars "/blog/:...slug", some true)]) ∧
    strIncludes (chars "*") (chars "/blog/:...slug") = false ∧
    ((extractNextJSAppRoutes (chars "app/") [chars "[]/page.tsx"]).map (fun r => r.path) =
      [chars "/[]"]) ∧
    '[' ∈ chars "/[]" := by
  decide

/-- C3 amended.  Every record of the app-style extraction has a route path
starting with `/`, and `catchAll = true` iff the route path contains the
substring `"..."` (not `*`); the route path is bracket-free whenever the
stripped input's brackets all occur as nonempty well-formed `[...]` groups
(the conventional `[name]` / `[...name]` segments). -/
theorem c3_app_route_shape :
    (∀ (pfx : Str) (files : List Str), ∀ r ∈ extractNextJSAppRoutes pfx files,
        r.path.head? = some '/' ∧
        (r.catchAll = some true ↔ strIncludes (chars "...") r.path = true)) ∧
    (∀ f : Str, wfBrackets (stripSpecial (stripExt f)) = true →
        '[' ∉ convertNextJSAppPathToRoute f ∧ ']' ∉ convertNextJSAppPathToRoute f) := by
  constructor
  · intro pfx files r hr
    obtain ⟨rel, _, _, hxeq⟩ := extractNextJSAppRoutes_mem hr
    subst hxeq
    refine ⟨convertNextJSAppPathToRoute_head rel, ?_⟩
    simp
  · intro f hwf
    exact convertNextJSAppPathToRoute_noBrk f hwf

theorem c3_app_route_shape_witness :
    ((extractNextJSAppRoutes (chars "app/") [chars "dashboard/page.tsx"]).getD 0
        (initialRouteInfo [] [])).path.head? = some '/' ∧
    '[' ∉ convertNextJSAppPathToRoute (chars "users/[id]/page.tsx") :=
  ⟨(c3_app_route_shape.1 (chars "app/") [chars "dashboard/page.tsx"] _
      (List.mem_cons_self _ _)).1,
   (c3_app_route_shape.2 (chars "users/[id]/page.tsx") (by decide)).1⟩

/-- C4 counterexample.  A `<Route path="*" />` yields a record with
`catchAll = true` but `dynamic = false` (dynamic is derived from `:` presence,
catchAll from `*` presence, independently), so `catchAll ⇒ dynamic` fails in
an actual `ExtractionResult`. -/
theorem c4_star_route_counterexample :
    (extractSiteRoutes 0 starRouteProject).routes.map (fun r => (r.catchAll, r.dynamic)) =
      [(some true, some false)] := by
  decide

/-- C4 amended.  Every RouteRecord appearing anywhere in an ExtractionResult
(children included, any strategy) whose path contains `:` whenever it contains
`*` satisfies `catchAll = true → dynamic = true`; the Next.js strategies need
no side condition, but declaration-extracted records with `*` and no `:` in
the path violate the invariant. -/
theorem c4_catchall_implies_dynamic (ff fuel : Nat) (p : ProjectModel) (r : RouteInfo)
    (hr : r ∈ flattenRoutes ff (extractSiteRoutes fuel p).routes)
    (hpath : strIncludes (chars "*") r.path = true → strIncludes (chars ":") r.path = true)
    (hca : r.catchAll = some true) : r.dynamic = some true :=
  (extractSiteRoutes_flatten_inv ff fuel p r hr).2 hca hpath

theorem c4_catchall_implies_dynamic_witness :
    ((extractSiteRoutes 0 colonStarRouteProject).routes.getD 0
        (initialRouteInfo [] [])).dynamic = some true :=
  c4_catchall_implies_dynamic 0 0 colonStarRouteProject _
    (List.mem_cons_self _ _) (by decide) rfl

/-! ## C8 — resolvedComponentPath is never absolute -/

/-- C8.  Wherever a record of an ExtractionResult (any strategy, children
included) carries a `resolvedComponentPath`, that path does not start with
`/`: convention records get `path.relative` outputs prefixed by the routing
directory, declaration records get `resolveImportPath` results, which are
`path.relative` outputs for `.`- or root-style specifiers and the (never
slash-initial) specifier itself for external packages. -/
theorem c8_resolved_path_relative (ff fuel : Nat) (p : ProjectModel) (r : RouteInfo)
    (hr : r ∈ flattenRoutes ff (extractSiteRoutes fuel p).routes) :
    ∀ s, r.resolvedComponentPath = some s → s.head? ≠ some '/' :=
  (extractSiteRoutes_flatten_inv ff fuel p r hr).1

theorem c8_resolved_path_relative_witness :
    (chars "react-router-dom").head? ≠ some '/' :=
  c8_resolved_path_relative 0 0 externalComponentProject
    ((extractSiteRoutes 0 externalComponentProject).routes.getD 0 (initialRouteInfo [] []))
    (List.mem_cons_self _ _) (chars "react-router-dom") rfl

/-! ## C9 — the rr strategy refines the vite strategy by dedup only -/

/-- C9.  For every project state, the react-router-dom strategy scans the same
signal-filtered files with the same per-file extraction as the vite strategy
and equals its output with later duplicate keys (`path|component`) removed;
the vite strategy itself performs no deduplication. -/
theorem c9_rr_refines_vite (ex : Str → Bool) (pp : Str) (fuel : Nat)
    (files : List SrcFile) :
    extractReactRouterRoutes ex pp fuel files =
      dedupeRoutes [] (extractViteRoutes ex pp fuel files) :=
  extractReactRouterRoutes_eq_dedupe ex pp fuel files

/-! ## C10 — declarations with no usable path are kept with defaults -/

theorem applyJSXAttr_no_path (ex : Str → Bool) (pp fp : Str) (imp : List (Str × Str))
    (r : RouteInfo) (a : Str × JSXAttrVal)
    (ha : ¬(a.1 = chars "path" ∧ ∃ s, a.2 = JSXAttrVal.strLit s)) :
    (applyJSXAttr ex pp fp imp r a).path = r.path ∧
    (applyJSXAttr ex pp fp imp r a).dynamic = r.dynamic ∧
    (applyJSXAttr ex pp fp imp r a).catchAll = r.catchAll := by
  unfold applyJSXAttr
  split
  · rename_i hp
    match hv : a.2 with
    | .strLit s => exact absurd ⟨hp, s, hv⟩ ha
    | .exprIdent n => exact ⟨rfl, rfl, rfl⟩
    | .exprJSXEl t => exact ⟨rfl, rfl, rfl⟩
    | .otherAttr => exact ⟨rfl, rfl, rfl⟩
  · split
    · match a.2 with
      | .strLit s => exact ⟨rfl, rfl, rfl⟩
      | .exprIdent n =>
        have h := resolveComponentIdent_fields ex pp fp imp r n
        exact ⟨h.1, h.2.1, h.2.2.1⟩
      | .exprJSXEl t => exact ⟨rfl, rfl, rfl⟩
      | .otherAttr => exact ⟨rfl, rfl, rfl⟩
    · split
      · match a.2 with
        | .strLit s => exact ⟨rfl, rfl, rfl⟩
        | .exprIdent n => exact ⟨rfl, rfl, rfl⟩
        | .exprJSXEl t =>
          have h := resolveComponentIdent_fields ex pp fp imp r t
          exact ⟨h.1, h.2.1, h.2.2.1⟩
        | .otherAttr => exact ⟨rfl, rfl, rfl⟩
      · exact ⟨rfl, rfl, rfl⟩

theorem foldJSX_no_path (ex : Str → Bool) (pp fp : Str) (imp : List (Str × Str)) :
    ∀ (attrs : List (Str × JSXAttrVal)) (r : RouteInfo),
      hasUsableJSXPath attrs = false →
      (attrs.foldl (applyJSXAttr ex pp fp imp) r).path = r.path ∧
      (attrs.foldl (applyJSXAttr ex pp fp imp) r).dynamic = r.dynamic ∧
      (attrs.foldl (applyJSXAttr ex pp fp imp) r).catchAll = r.catchAll := by
  intro attrs
  induction attrs with
  | nil => intro r _; exact ⟨rfl, rfl, rfl⟩
  | cons a rest ih =>
    intro r hn
    rw [hasUsableJSXPath, List.any_cons] at hn
    simp only [Bool.or_eq_false_iff] at hn
    have ha : ¬(a.1 = chars "path" ∧ ∃ s, a.2 = JSXAttrVal.strLit s) := by
      intro ⟨h1, s, h2⟩
      have := hn.1
      rw [h2] at this
      simp [h1] at this
    have hstep := applyJSXAttr_no_path ex pp fp imp r a ha
    have htail := ih (applyJSXAttr ex pp fp imp r a) hn.2
    exact ⟨htail.1.trans hstep.1, htail.2.1.trans hstep.2.1, htail.2.2.trans hstep.2.2⟩

theorem applyObjProp_no_path (H : List RObjElem → List RouteInfo) (ex : Str → Bool)
    (pp fp : Str) (imp : List (Str × Str)) (r : RouteInfo) (a : Str × PropVal)
    (ha : ¬(a.1 = chars "path" ∧ ∃ s, a.2 = PropVal.strLit s)) :
    (applyObjProp H ex pp fp imp r a).path = r.path ∧
    (applyObjProp H ex pp fp imp r a).dynamic = r.dynamic ∧
    (applyObjProp H ex pp fp imp r a).catchAll = r.catchAll := by
  unfold applyObjProp
  split
  · rename_i hp
    match hv : a.2 with
    | .strLit s => exact absurd ⟨hp, s, hv⟩ ha
    | .identV n => exact ⟨rfl, rfl, rfl⟩
    | .jsxEl t => exact ⟨rfl, rfl, rfl⟩
    | .childArr cs => exact ⟨rfl, rfl, rfl⟩
    | .otherV => exact ⟨rfl, rfl, rfl⟩
  · split
    · match a.2 with
      | .strLit s => exact ⟨rfl, rfl, rfl⟩
      | .identV n =>
        have h := resolveComponentIdent_fields ex pp fp imp r n
        exact ⟨h.1, h.2.1, h.2.2.1⟩
      | .jsxEl t => exact ⟨rfl, rfl, rfl⟩
      | .childArr cs => exact ⟨rfl, rfl, rfl⟩
      | .otherV => exact ⟨rfl, rfl, rfl⟩
    · split
      · match a.2 with
        | .strLit s => exact ⟨rfl, rfl, rfl⟩
        | .identV n => exact ⟨rfl, rfl, rfl⟩
        | .jsxEl t =>
          have h := resolveComponentIdent_fields ex pp fp imp r t
          exact ⟨h.1, h.2.1, h.2.2.1⟩
        | .childArr cs => exact ⟨rfl, rfl, rfl⟩
        | .otherV => exact ⟨rfl, rfl, rfl⟩
      · split
        · match a.2 with
          | .strLit s => exact ⟨rfl, rfl, rfl⟩
          | .identV n => exact ⟨rfl, rfl, rfl⟩
          | .jsxEl t => exact ⟨rfl, rfl, rfl⟩
          | .childArr cs => exact ⟨rfl, rfl, rfl⟩
          | .otherV => exact ⟨rfl, rfl, rfl⟩
        · exact ⟨rfl, rfl, rfl⟩

theorem foldObj_no_path (H : List RObjElem → List RouteInfo) (ex : Str → Bool)
    (pp fp : Str) (imp : List (Str × Str)) :
    ∀ (props : List (Str × PropVal)) (r : RouteInfo),
      hasUsableObjPath props = false →
      (props.foldl (applyObjProp H ex pp fp imp) r).path = r.path ∧
      (props.foldl (applyObjProp H ex pp fp imp) r).dynamic = r.dynamic ∧
      (props.foldl (applyObjProp H ex pp fp imp) r).catchAll = r.catchAll := by
  intro props
  induction props with
  | nil => intro r _; exact ⟨rfl, rfl, rfl⟩
  | cons a rest ih =>
    intro r hn
    rw [hasUsableObjPath, List.any_cons] at hn
    simp only [Bool.or_eq_false_iff] at hn
    have ha : ¬(a.1 = chars "path" ∧ ∃ s, a.2 = PropVal.strLit s) := by
      intro ⟨h1, s, h2⟩
      have := hn.1
      rw [h2] at this
      simp [h1] at this
    have hstep := applyObjProp_no_path H ex pp fp imp r a ha
    have htail := ih (applyObjProp H ex pp fp imp r a) hn.2
    exact ⟨htail.1.trans hstep.1, htail.2.1.trans hstep.2.1, htail.2.2.trans hstep.2.2⟩

theorem jsx_filterMap_length (ex : Str → Bool) (pp fp : Str) (imp : List (Str × Str)) :
    ∀ l : List (List (Str × JSXAttrVal)),
      (l.filterMap (extractRouteFromJSXElement ex pp fp imp)).length = l.length := by
  intro l
  induction l with
  | nil => rfl
  | cons attrs rest ih =>
    rw [List.filterMap_cons]
    simp only [extractRouteFromJSXElement, List.length_cons, ih]

theorem cbr_length (ex : Str → Bool) (pp fp : Str) (imp : List (Str × Str)) (fuel : Nat) :
    ∀ call : Option (List RObjElem),
      (extractRoutesFromCreateBrowserRouter ex pp fp imp fuel call).length = countObjs call := by
  intro call
  cases call with
  | none => rfl
  | some elems =>
    induction elems with
    | nil => rfl
    | cons e rest ih =>
      cases e with
      | objE ps =>
        simp only [extractRoutesFromCreateBrowserRouter, List.filterMap_cons, countObjs,
          List.filter_cons, isObjE] at ih ⊢
        simp [ih]
      | nonObj =>
        simp only [extractRoutesFromCreateBrowserRouter, List.filterMap_cons, countObjs,
          List.filter_cons, isObjE] at ih ⊢
        simp [ih]

/-- C10.  A matched `Route` JSX element always yields a record (never `null`),
with path defaulting to `/` and `dynamic`/`catchAll` left unset when no
string-literal `path` attribute is present; a route-descriptor object literal
likewise always yields a record with the same defaults; and a parsed file
contributes exactly one record per `Route` element plus one per object element
of each `createBrowserRouter` array — no declaration is skipped. -/
theorem c10_no_usable_path_defaults :
    (∀ (ex : Str → Bool) (pp fp : Str) (imp : List (Str × Str))
        (attrs : List (Str × JSXAttrVal)),
      ∃ r, extractRouteFromJSXElement ex pp fp imp attrs = some r ∧
        (hasUsableJSXPath attrs = false →
          r.path = chars "/" ∧ r.dynamic = none ∧ r.catchAll = none)) ∧
    (∀ (ex : Str → Bool) (pp fp : Str) (imp : List (Str × Str)) (fuel : Nat)
        (props : List (Str × PropVal)),
      hasUsableObjPath props = false →
        (extractRouteFromObjectExpression ex pp fp imp fuel props).path = chars "/" ∧
        (extractRouteFromObjectExpression ex pp fp imp fuel props).dynamic = none ∧
        (extractRouteFromObjectExpression ex pp fp imp fuel props).catchAll = none) ∧
    (∀ (ex : Str → Bool) (pp : Str) (fuel : Nat) (f : SrcFile), f.parseOk = true →
      (extractReactRouterRoutesFromFile ex pp fuel f).length =
        f.jsxRoutes.length + (f.browserRouterCalls.map countObjs).sum) := by
  refine ⟨?_, ?_, ?_⟩
  · intro ex pp fp imp attrs
    refine ⟨_, rfl, ?_⟩
    intro hn
    exact foldJSX_no_path ex pp fp imp attrs (initialRouteInfo pp fp) hn
  · intro ex pp fp imp fuel props hn
    cases fuel with
    | zero => exact foldObj_no_path _ ex pp fp imp props (initialRouteInfo pp fp) hn
    | succ fu => exact foldObj_no_path _ ex pp fp imp props (initialRouteInfo pp fp) hn
  · intro ex pp fuel f hok
    unfold extractReactRouterRoutesFromFile
    rw [if_pos hok]
    rw [List.length_append, jsx_filterMap_length, List.length_flatten, List.map_map]
    have hmap : List.map
        (List.length ∘ extractRoutesFromCreateBrowserRouter ex pp f.path f.imports fuel)
        f.browserRouterCalls = List.map countObjs f.browserRouterCalls :=
      List.map_congr_left fun call _ => cbr_length ex pp f.path f.imports fuel call
    rw [hmap]

theorem c10_no_usable_path_defaults_witness :
    (∃ r, extractRouteFromJSXElement (fun _ => false) (chars "/p") (chars "/p/A.tsx") []
        [(chars "exact", JSXAttrVal.otherAttr)] = some r ∧
        (hasUsableJSXPath [(chars "exact", JSXAttrVal.otherAttr)] = false →
          r.path = chars "/" ∧ r.dynamic = none ∧ r.catchAll = none)) ∧
    ((extractRouteFromObjectExpression (fun _ => false) (chars "/p") (chars "/p/A.tsx") [] 1
        [(chars "element", PropVal.jsxEl (chars "Home"))]).path = chars "/" ∧
      (extractRouteFromObjectExpression (fun _ => false) (chars "/p") (chars "/p/A.tsx") [] 1
        [(chars "element", PropVal.jsxEl (chars "Home"))]).dynamic = none ∧
      (extractRouteFromObjectExpression (fun _ => false) (chars "/p") (chars "/p/A.tsx") [] 1
        [(chars "element", PropVal.jsxEl (chars "Home"))]).catchAll = none) ∧
    ((extractReactRouterRoutesFromFile (fun _ => false) (chars "/p") 1
        { path := chars "/p/A.tsx"
          hasSignal := true
          parseOk := true
          imports := []
          jsxRoutes := [[(chars "exact", JSXAttrVal.otherAttr)]]
          browserRouterCalls := [some [RObjElem.objE [], RObjElem.nonObj]] }).length =
      1 + 1) :=
  ⟨c10_no_usable_path_defaults.1 (fun _ => false) (chars "/p") (chars "/p/A.tsx") []
      [(chars "exact", JSXAttrVal.otherAttr)],
   c10_no_usable_path_defaults.2.1 (fun _ => false) (chars "/p") (chars "/p/A.tsx") [] 1
      [(chars "element", PropVal.jsxEl (chars "Home"))] (by decide),
   c10_no_usable_path_defaults.2.2 (fun _ => false) (chars "/p") 1 _ rfl⟩

/-- C5.  In the react-router-dom strategy, results are deduplicated by the
key `path|component`, first occurrence kept: two files declaring routes with
identical (path, component-file) pairs collapse to one record, while the same
path with differing (nonempty) component files keeps both records. -/
theorem c5_declaration_dedup (ex : Str → Bool) (pp a b p : Str) :
    (pathRelative pp a = pathRelative pp b →
      (extractReactRouterRoutes ex pp 0 [mkRouteFile p a, mkRouteFile p b]).length = 1) ∧
    (pathRelative pp a ≠ pathRelative pp b →
      pathRelative pp a ≠ [] → pathRelative pp b ≠ [] →
      (extractReactRouterRoutes ex pp 0 [mkRouteFile p a, mkRouteFile p b]).length = 2) := by
  have hvite : extractViteRoutes ex pp 0 [mkRouteFile p a, mkRouteFile p b] =
      [jsxPathRecord pp a p, jsxPathRecord pp b p] := rfl
  have hrr := extractReactRouterRoutes_eq_dedupe ex pp 0 [mkRouteFile p a, mkRouteFile p b]
  rw [hvite] at hrr
  constructor
  · intro heq
    have hk : routeKey (jsxPathRecord pp b p) = routeKey (jsxPathRecord pp a p) := by
      simp only [routeKey, jsxPathRecord, heq]
    rw [hrr]
    simp [dedupeRoutes, hk]
  · intro hne h1 h2
    have hk : routeKey (jsxPathRecord pp b p) ≠ routeKey (jsxPathRecord pp a p) := by
      simp only [routeKey, jsxPathRecord]
      rw [if_neg h2, if_neg h1]
      intro hcontra
      have hc2 := List.append_cancel_left hcontra
      simp only [List.cons.injEq, true_and] at hc2
      exact hne hc2.symm
    rw [hrr]
    simp [dedupeRoutes, hk]

theorem c5_declaration_dedup_witness :
    (extractReactRouterRoutes (fun _ => false) (chars "/proj") 0
        [mkRouteFile (chars "/x") (chars "/proj/A.tsx"),
         mkRouteFile (chars "/x") (chars "/proj/A.tsx")]).length = 1 ∧
    (extractReactRouterRoutes (fun _ => false) (chars "/proj") 0
        [mkRouteFile (chars "/x") (chars "/proj/A.tsx"),
         mkRouteFile (chars "/x") (chars "/proj/B.tsx")]).length = 2 :=
  ⟨(c5_declaration_dedup (fun _ => false) (chars "/proj") (chars "/proj/A.tsx")
      (chars "/proj/A.tsx") (chars "/x")).1 rfl,
   (c5_declaration_dedup (fun _ => false) (chars "/proj") (chars "/proj/A.tsx")
      (chars "/proj/B.tsx") (chars "/x")).2 (by decide) (by decide) (by decide)⟩
